import Mathlib

/-!
# Shadowing File System — verification of the sfs_api core

A shallow embedding of the Shadow File System implementation (`sfs_api.c`).
The C code keeps the whole filesystem image in memory (`struct s_file_system`
and `struct s_open_file_table` globals) and mirrors metadata to an emulated
disk; data-region blocks live only on the emulated disk.

Modelling conventions:
* C `int` return values become `Int` (`-1` on failure, as in the source).
* Machine integers never overflow in the reachable ranges used here
  (block numbers < 1024, sizes < 2^31), so `Nat`/`Int` are used directly.
* Fixed C arrays become total functions `Nat → _`; every loop scans the
  exact index range of the source loop, so entries outside the range are
  never consulted by the embedded code.
* C strings (no interior NUL by definition) become `List Nat` of their
  nonzero bytes; the `name[0] == '\0'` test reads the head with default 0.
* `read_blocks`/`write_blocks` on data-region blocks are modelled through
  an explicit disk map.  A block is used either as a byte block or as an
  indirect-pointer block, never both, so the disk carries the two views
  side by side.  Metadata writes (superblock, inode file, directory
  blocks, bitmaps) only mirror the in-memory image that the model already
  holds authoritatively, so they are not modelled separately.
* The emulator is assumed to never fail a read/write (the `err` branches
  of `read_blocks` in the source are not taken).
-/

namespace SFS

set_option maxRecDepth 100000

/-! ## Geometry constants (the `#define`s of the source) -/

def NUMBER_OF_BYTES_BLOCK : Nat := 1024
def NUMBER_OF_BLOCKS : Nat := 1024
def NUMBER_OF_POINTERS : Nat := 14
def NODE_SIZE : Nat := (NUMBER_OF_POINTERS + 2) * 4
def NUMBER_OF_I_NODES : Nat := 200
def MAX_NODE_IN_BLOCK : Nat := NUMBER_OF_BYTES_BLOCK / NODE_SIZE
def BLOCKS_I_NODE_FILE : Nat :=
  NUMBER_OF_I_NODES / MAX_NODE_IN_BLOCK +
    (if NUMBER_OF_I_NODES % MAX_NODE_IN_BLOCK ≠ 0 then 1 else 0)
def MAX_NAME_LENGTH : Nat := 20
/-- `sizeof(struct s_dir_entry)`: 21 name bytes, 3 padding, 4 for the
inode number (the C struct is 4-byte aligned). -/
def DIR_ENTRY_SIZE : Nat := 28
def MAX_FILES : Nat := NUMBER_OF_BYTES_BLOCK / DIR_ENTRY_SIZE
def MAX_DIRS_INCL_SHAD : Nat := 5
def MAX_FD : Nat := 32
def FIRST_DATA_BLOCK : Nat := 1 + BLOCKS_I_NODE_FILE
def LAST_DATA_BLOCK : Nat := NUMBER_OF_BLOCKS - 1 - 2 - MAX_DIRS_INCL_SHAD
def POINTERS_IND_BLOCK : Nat := NUMBER_OF_BYTES_BLOCK / 4

theorem NP_eq : NUMBER_OF_POINTERS = 14 := rfl
theorem PIB_eq : POINTERS_IND_BLOCK = 256 := rfl
theorem BS_eq : NUMBER_OF_BYTES_BLOCK = 1024 := rfl
theorem MF_eq : MAX_FILES = 36 := rfl
theorem MFD_eq : MAX_FD = 32 := rfl

/-! ## State -/

/-- `struct s_node`. -/
structure SNode where
  size : Int
  pointer : Nat → Nat
  ind_pointer : Nat

/-- `struct s_dir_entry`.  `name` holds the nonzero bytes of the stored
C string (the 21-byte array with its NUL padding dropped). -/
structure SDirEntry where
  name : List Nat
  i_node_number : Nat

/-- `struct s_file_pointer`. -/
structure SFilePointer where
  block : Nat
  c_ptr : Nat

/-- `struct s_fd`. -/
structure SFd where
  entry : SDirEntry
  read_pointer : SFilePointer
  write_pointer : SFilePointer

/-- `struct s_file_system` (the in-memory image).  The inode file is
flattened: inode number `n` is `block[n / 16].i_node[n % 16]` in the
source, here simply `i_node n`. -/
structure SFileSystem where
  i_node : Nat → SNode
  directory : Nat → Nat → SDirEntry
  free_bit_map : Nat → Bool
  write_mask : Nat → Bool

/-- The emulated disk, restricted to the data region.  `data b` is the
byte content of block `b`; `ind b` is the same block read back as an
array of `ptr_t` (a block is only ever used in one of the two roles). -/
structure Disk where
  data : Nat → Nat → Nat
  ind : Nat → Nat → Nat

/-- The two globals of the source plus the data-region disk. -/
structure St where
  fs : SFileSystem
  oft : Nat → SFd
  disk : Disk

/-- Point update of a `Nat`-indexed map. -/
def upd {α : Type} (f : Nat → α) (i : Nat) (v : α) : Nat → α :=
  fun j => if j = i then v else f j

theorem upd_same {α : Type} (f : Nat → α) (i : Nat) (v : α) : upd f i v i = v := by
  simp [upd]

theorem upd_other {α : Type} (f : Nat → α) (i j : Nat) (v : α) (h : j ≠ i) :
    upd f i v j = f j := by
  simp [upd, h]

/-! ## Loop combinators

Each C scanning loop is expressed with one of these combinators over the
exact index range of the source loop. -/

/-- First index `i` in `[start, start+count)` with `p i = true`, scanning
upward — the shape of every `for` search loop in the source. -/
def findIdx? (p : Nat → Bool) : Nat → Nat → Option Nat
  | _, 0 => none
  | start, n + 1 => if p start then some start else findIdx? p (start + 1) n

theorem findIdx?_none {p : Nat → Bool} :
    ∀ {start n : Nat}, findIdx? p start n = none ↔
      ∀ j, start ≤ j → j < start + n → p j = false := by
  intro start n
  induction n generalizing start with
  | zero => simp [findIdx?]; omega
  | succ n ih =>
    simp only [findIdx?]
    by_cases h : p start = true
    · rw [if_pos h]
      constructor
      · intro hc; cases hc
      · intro hall
        have hfalse := hall start (le_refl _) (by omega)
        rw [h] at hfalse; cases hfalse
    · rw [if_neg h, ih]
      constructor
      · intro hall j hj1 hj2
        rcases Nat.eq_or_lt_of_le hj1 with rfl | hlt
        · exact Bool.eq_false_iff.mpr h
        · exact hall j hlt (by omega)
      · intro hall j hj1 hj2
        exact hall j (by omega) (by omega)

theorem findIdx?_some {p : Nat → Bool} :
    ∀ {start n i : Nat}, findIdx? p start n = some i →
      start ≤ i ∧ i < start + n ∧ p i = true ∧
        ∀ j, start ≤ j → j < i → p j = false := by
  intro start n
  induction n generalizing start with
  | zero => intro i h; simp [findIdx?] at h
  | succ n ih =>
    intro i h
    simp only [findIdx?] at h
    by_cases hp : p start = true
    · rw [if_pos hp] at h
      cases h
      exact ⟨le_refl _, by omega, hp, fun j h1 h2 => by omega⟩
    · rw [if_neg hp] at h
      obtain ⟨h1, h2, h3, h4⟩ := ih h
      refine ⟨by omega, by omega, h3, ?_⟩
      intro j hj1 hj2
      rcases Nat.eq_or_lt_of_le hj1 with rfl | hlt
      · exact Bool.eq_false_iff.mpr hp
      · exact h4 j hlt hj2

/-- The nonzero prefix of `f start, f (start+1), …` of length at most
`count` — the pointer chain collected by the zero-terminated loops. -/
def takeUntilZero (f : Nat → Nat) : Nat → Nat → List Nat
  | _, 0 => []
  | start, n + 1 => if f start = 0 then [] else f start :: takeUntilZero f (start + 1) n

/-- A scanning loop of the shape
`for i: if (!f[i]) return last; last = f[i];` — returns the `return`ed /
fall-through value together with whether the loop exited early. -/
def scanLast (f : Nat → Nat) : Nat → Nat → Int → Bool × Int
  | _, 0, last => (false, last)
  | start, n + 1, last =>
    if f start = 0 then (true, last)
    else scanLast f (start + 1) n (Int.ofNat (f start))

theorem scanLast_spec (f : Nat → Nat) :
    ∀ (start n : Nat) (last : Int),
      scanLast f start n last =
        (decide ((takeUntilZero f start n).length < n),
          (takeUntilZero f start n).foldl (fun _ x => Int.ofNat x) last) := by
  intro start n
  induction n generalizing start with
  | zero => intro last; simp [scanLast, takeUntilZero]
  | succ n ih =>
    intro last
    simp only [scanLast, takeUntilZero]
    by_cases h : f start = 0
    · simp [h]
    · simp only [if_neg h, ih, List.length_cons, List.foldl_cons, Nat.succ_lt_succ_iff]

/-! ## Bitmap functions -/

def set_bit_map (m : Nat → Bool) (block : Nat) : Nat → Bool := upd m block true

def clr_bit_map (m : Nat → Bool) (block : Nat) : Nat → Bool := upd m block false

def get_bit_map (m : Nat → Bool) (block : Nat) : Bool := m block

/-! ## Init functions -/

def init_node : SNode := ⟨-1, fun _ => 0, 0⟩

def init_dir_entry : SDirEntry := ⟨[], 0⟩

def init_file_pointer : SFilePointer := ⟨0, 0⟩

def init_fd : SFd := ⟨init_dir_entry, init_file_pointer, init_file_pointer⟩

/-! ## Allocator -/

/-- `get_free_block`: scan `FIRST_DATA_BLOCK ..= LAST_DATA_BLOCK` for the
first free bit, clear it, return the block; `-1` if none. -/
def get_free_block (fs : SFileSystem) : Int × SFileSystem :=
  match findIdx? (fun i => get_bit_map fs.free_bit_map i)
      FIRST_DATA_BLOCK (LAST_DATA_BLOCK + 1 - FIRST_DATA_BLOCK) with
  | some i => (Int.ofNat i, { fs with free_bit_map := clr_bit_map fs.free_bit_map i })
  | none => (-1, fs)

/-- `get_free_i_node`: first inode (in inode-file scan order, which is the
flat inode-number order) whose `pointer[0]` is 0.  The source returns the
`(block, node-in-block)` decomposition of this flat number; callers
recombine it to `i_node_number`, returned here directly. -/
def get_free_i_node (fs : SFileSystem) : Option Nat :=
  findIdx? (fun n => (fs.i_node n).pointer 0 == 0) 0 (BLOCKS_I_NODE_FILE * MAX_NODE_IN_BLOCK)

/-! ## C strings -/

/-- `strncmp(a, b, n) == 0` for NUL-free strings given as their byte
lists; the implicit terminator is the list end, so a string that ends
while the other continues compares unequal (0 vs a nonzero byte). -/
def strncmpEq : Nat → List Nat → List Nat → Bool
  | 0, _, _ => true
  | _ + 1, [], [] => true
  | _ + 1, [], _ :: _ => false
  | _ + 1, _ :: _, [] => false
  | n + 1, a :: as, b :: bs => a == b && strncmpEq n as bs

/-- `strncpy(dst, name, MAX_NAME_LENGTH)` into a NUL-filled 21-byte
array: the stored string is the first 20 bytes of `name`. -/
def strncpyName (name : List Nat) : List Nat := name.take MAX_NAME_LENGTH

/-- The `name[0] == '\0'` test on a stored byte list. -/
def isEmptyName (name : List Nat) : Bool := name.headD 0 == 0

/-! ## Inode walker -/

/-- `get_last_file_block`: last nonzero pointer of the chain (`-1` when
`pointer[0]` is already 0).  `s.1` is the early-`return` flag of the
direct-pointer loop. -/
def get_last_file_block (fs : SFileSystem) (disk : Disk) (i_node_number : Nat) : Int :=
  let node := fs.i_node i_node_number
  let s := scanLast node.pointer 0 NUMBER_OF_POINTERS (-1)
  if s.1 then s.2
  else if node.ind_pointer = 0 then s.2
  else (scanLast (disk.ind node.ind_pointer) 0 POINTERS_IND_BLOCK s.2).2

/-- `get_num_file_blocks`: the zero-terminated counting loops, phrased as
the lengths of the nonzero prefixes they count. -/
def get_num_file_blocks (fs : SFileSystem) (disk : Disk) (i_node_number : Nat) : Nat :=
  let node := fs.i_node i_node_number
  let d := takeUntilZero node.pointer 0 NUMBER_OF_POINTERS
  if d.length < NUMBER_OF_POINTERS then d.length
  else if node.ind_pointer = 0 then d.length
  else d.length + (takeUntilZero (disk.ind node.ind_pointer) 0 POINTERS_IND_BLOCK).length

/-- `get_file_size` (the inode-level helper). -/
def get_file_size (fs : SFileSystem) (i_node_number : Nat) : Int :=
  (fs.i_node i_node_number).size

/-- `get_end_char`.  C `%` on `int` is truncated, hence `Int.tmod`. -/
def get_end_char (fs : SFileSystem) (disk : Disk) (i_node_number : Nat) : Int :=
  let size := get_file_size fs i_node_number
  let e := Int.tmod size (Int.ofNat NUMBER_OF_BYTES_BLOCK)
  if e = 0 then
    if size = Int.ofNat (get_num_file_blocks fs disk i_node_number * NUMBER_OF_BYTES_BLOCK)
    then Int.ofNat NUMBER_OF_BYTES_BLOCK
    else 0
  else e

/-- `inc_file_size`. -/
def inc_file_size (fs : SFileSystem) (i_node_number : Nat) (delta : Int) : SFileSystem :=
  { fs with
    i_node := upd fs.i_node i_node_number
      ({ fs.i_node i_node_number with
         size := (fs.i_node i_node_number).size + delta }) }

/-- `get_next_file_block`: pointer following `block` on the chain, `-1`
when `block` is last.  When `block` is on neither pointer list the
source hits `assert(0)`; that branch (unreachable for a block that is on
the open file's chain) is modelled as `-1`. -/
def get_next_file_block (fs : SFileSystem) (disk : Disk) (inn block : Nat) : Int :=
  let node := fs.i_node inn
  match findIdx? (fun i => node.pointer i == block) 0 NUMBER_OF_POINTERS with
  | some i =>
    if i + 1 < NUMBER_OF_POINTERS then
      if node.pointer (i + 1) ≠ 0 then Int.ofNat (node.pointer (i + 1)) else -1
    else if node.ind_pointer = 0 then -1
    else
      let p0 := disk.ind node.ind_pointer 0
      if p0 ≠ 0 then Int.ofNat p0 else -1
  | none =>
    let ptrs := disk.ind node.ind_pointer
    match findIdx? (fun i => ptrs i == block) 0 POINTERS_IND_BLOCK with
    | some i =>
      if i + 1 < POINTERS_IND_BLOCK then
        if ptrs (i + 1) ≠ 0 then Int.ofNat (ptrs (i + 1)) else -1
      else -1
    | none => -1

/-- `add_block` (the spec's `append_block`).  Note the final
out-of-pointers path returns `-1` without releasing `block_ptr`,
exactly as the source does. -/
def add_block (fs : SFileSystem) (disk : Disk) (inn : Nat) : Int × SFileSystem × Disk :=
  match get_free_block fs with
  | (block_ptr, fs) =>
    if block_ptr < 0 then (-1, fs, disk)
    else
      let b := block_ptr.toNat
      let node := fs.i_node inn
      match findIdx? (fun i => node.pointer i == 0) 0 NUMBER_OF_POINTERS with
      | some i =>
        (block_ptr,
         { fs with i_node := upd fs.i_node inn { node with pointer := upd node.pointer i b } },
         disk)
      | none =>
        if node.ind_pointer = 0 then
          match get_free_block fs with
          | (ind_block_ptr, fs₁) =>
            if ind_block_ptr < 0 then
              (-1,
               { fs₁ with free_bit_map := set_bit_map fs₁.free_bit_map b,
                          write_mask := set_bit_map fs₁.write_mask b },
               disk)
            else
              let ib := ind_block_ptr.toNat
              let fs₂ := { fs₁ with i_node := upd fs₁.i_node inn { node with ind_pointer := ib } }
              (block_ptr, fs₂, { disk with ind := upd disk.ind ib (upd (fun _ => 0) 0 b) })
        else
          let ptrs := disk.ind node.ind_pointer
          match findIdx? (fun i => ptrs i == 0) 0 POINTERS_IND_BLOCK with
          | some i =>
            (block_ptr, fs, { disk with ind := upd disk.ind node.ind_pointer (upd ptrs i b) })
          | none => (-1, fs, disk)

/-! ## Directory -/

/-- Point update of a doubly indexed map (directory slot, entry). -/
def upd2 {α : Type} (f : Nat → Nat → α) (i j : Nat) (v : α) : Nat → Nat → α :=
  fun i' => if i' = i then upd (f i') j v else f i'

/-- `init_dir` applied to one directory slot. -/
def init_dir_slot (d : Nat → Nat → SDirEntry) (s : Nat) : Nat → Nat → SDirEntry :=
  fun s' i => if s' = s ∧ i < MAX_FILES then init_dir_entry else d s' i

/-- `add_file_to_dir`: directory index (or `-1`), the flat inode number
claimed (the recombination of the `i_block`/`i_node` out-parameters),
and the new filesystem. -/
def add_file_to_dir (fs : SFileSystem) (name : List Nat) : Int × Nat × SFileSystem :=
  match findIdx? (fun i => isEmptyName (fs.directory 0 i).name) 0 MAX_FILES with
  | none => (-1, 0, fs)
  | some i =>
    match get_free_i_node fs with
    | none => (-1, 0, fs)
    | some inn =>
      match get_free_block fs with
      | (block, fs₁) =>
        if block < 0 then (-1, 0, fs₁)
        else
          let node := fs₁.i_node inn
          let fs₂ := { fs₁ with
            i_node := upd fs₁.i_node inn
              { node with size := 0, pointer := upd node.pointer 0 block.toNat },
            directory := upd2 fs₁.directory 0 i ⟨strncpyName name, inn⟩ }
          (Int.ofNat i, inn, fs₂)

/-! ## Open-file table / fopen -/

/-- `set_fopen_name`. -/
def set_fopen_name (oft : Nat → SFd) (name : List Nat) (index_table : Nat) : Nat → SFd :=
  upd oft index_table
    { oft index_table with
      entry := { (oft index_table).entry with name := strncpyName name } }

/-- `set_read_ptr`. -/
def set_read_ptr (fs : SFileSystem) (oft : Nat → SFd) (i_node_number index_table : Nat) :
    Nat → SFd :=
  upd oft index_table
    { oft index_table with read_pointer := ⟨(fs.i_node i_node_number).pointer 0, 0⟩ }

/-- `set_write_ptr` (always returns 0).  The `int → uint32` stores are
only exercised on valid inodes, where both values are nonnegative. -/
def set_write_ptr (fs : SFileSystem) (disk : Disk) (oft : Nat → SFd)
    (i_node_number index_table : Nat) : Nat → SFd :=
  upd oft index_table
    { oft index_table with
      write_pointer := ⟨(get_last_file_block fs disk i_node_number).toNat,
                        (get_end_char fs disk i_node_number).toNat⟩ }

/-- `set_fopen_ptrs` (its `set_write_ptr` error branch is dead code:
`set_write_ptr` always returns 0). -/
def set_fopen_ptrs (fs : SFileSystem) (disk : Disk) (oft : Nat → SFd)
    (index_sys index_table : Nat) : Nat → SFd :=
  let inn := (fs.directory 0 index_sys).i_node_number
  let oft₁ := set_write_ptr fs disk oft inn index_table
  let oft₂ := upd oft₁ index_table
    { oft₁ index_table with
      entry := { (oft₁ index_table).entry with i_node_number := inn } }
  set_read_ptr fs oft₂ inn index_table

/-- `create_open_file_entry`. -/
def create_open_file_entry (fs : SFileSystem) (disk : Disk) (oft : Nat → SFd)
    (name : List Nat) (index : Nat) : Int × (Nat → SFd) :=
  match findIdx? (fun i => isEmptyName (oft i).entry.name) 0 MAX_FD with
  | none => (-1, oft)
  | some i =>
    let oft₁ := set_fopen_ptrs fs disk oft index i
    (Int.ofNat i, set_fopen_name oft₁ name i)

/-- `fopen_existing`: fail when any open entry already has this name. -/
def fopen_existing (fs : SFileSystem) (disk : Disk) (oft : Nat → SFd)
    (name : List Nat) (index : Nat) : Int × (Nat → SFd) :=
  if (findIdx? (fun i => strncmpEq MAX_NAME_LENGTH name (oft i).entry.name) 0 MAX_FD).isSome
  then (-1, oft)
  else create_open_file_entry fs disk oft name index

/-- `fopen_new`.  Its first loop returns the fd of an already-open entry
with this name.  The `assert(i < MAX_FD)` cannot fire because
`ssfs_fopen` has already rejected a full table; the unreachable branch
is modelled as failure. -/
def fopen_new (fs : SFileSystem) (oft : Nat → SFd) (name : List Nat) :
    Int × SFileSystem × (Nat → SFd) :=
  match findIdx? (fun i => strncmpEq MAX_NAME_LENGTH (oft i).entry.name name) 0 MAX_FD with
  | some i => (Int.ofNat i, fs, oft)
  | none =>
    match findIdx? (fun i => isEmptyName (oft i).entry.name) 0 MAX_FD with
    | none => (-1, fs, oft)
    | some i =>
      match add_file_to_dir fs name with
      | (entry, inn, fs₁) =>
        if entry < 0 then (-1, fs₁, oft)
        else
          let fd : SFd :=
            { entry := ⟨strncpyName name, (fs₁.directory 0 entry.toNat).i_node_number⟩,
              read_pointer := ⟨(fs₁.i_node inn).pointer 0, 0⟩,
              write_pointer := ⟨(fs₁.i_node inn).pointer 0, 0⟩ }
          (Int.ofNat i, fs₁, upd oft i fd)

/-- `check_fd_full`, as the boolean "table is full" that `ssfs_fopen`
branches on (the source encodes it as `-1` / `0`). -/
def check_fd_full (oft : Nat → SFd) : Bool :=
  (findIdx? (fun i => isEmptyName (oft i).entry.name) 0 MAX_FD).isNone

/-- `ssfs_fopen`.  A NULL `name` has no counterpart in the model; the
`strlen(name) == 0` test is emptiness of the byte list. -/
def ssfs_fopen (st : St) (name : List Nat) : Int × St :=
  if check_fd_full st.oft then (-1, st)
  else if name.length = 0 then (-1, st)
  else
    match findIdx? (fun i => strncmpEq MAX_NAME_LENGTH (st.fs.directory 0 i).name name)
        0 MAX_FILES with
    | some i =>
      match fopen_existing st.fs st.disk st.oft name i with
      | (r, oft') => (r, { st with oft := oft' })
    | none =>
      match fopen_new st.fs st.oft name with
      | (r, fs', oft') => (r, { st with fs := fs', oft := oft' })

/-- `ssfs_fclose` (the block flushes only mirror in-memory state). -/
def ssfs_fclose (st : St) (fileID : Int) : Int × St :=
  if fileID < 0 ∨ fileID ≥ Int.ofNat MAX_FD then (-1, st)
  else if isEmptyName (st.oft fileID.toNat).entry.name then (-1, st)
  else (0, { st with oft := upd st.oft fileID.toNat init_fd })

/-! ## Remove -/

/-- `rm_fd`: reinitialize every open-file-table entry whose name matches. -/
def rm_fd (oft : Nat → SFd) (file : List Nat) : Nat → SFd :=
  fun i =>
    if i < MAX_FD then
      if strncmpEq MAX_NAME_LENGTH (oft i).entry.name file then init_fd else oft i
    else oft i

/-- `rm_file_from_disk`: mark the direct blocks free, then (when an
indirect block exists) the blocks it lists and the indirect block
itself; reinitialize the inode.  (`read_blocks` is assumed to succeed;
its error branch only logs.) -/
def rm_file_from_disk (fs : SFileSystem) (disk : Disk) (shadow_number entry_index : Nat) :
    SFileSystem :=
  let inn := (fs.directory shadow_number entry_index).i_node_number
  let node := fs.i_node inn
  let direct := takeUntilZero node.pointer 0 NUMBER_OF_POINTERS
  let fs₁ := { fs with
    free_bit_map := direct.foldl (fun m b => set_bit_map m b) fs.free_bit_map,
    write_mask := direct.foldl (fun m b => set_bit_map m b) fs.write_mask }
  let fs₂ :=
    if node.ind_pointer ≠ 0 then
      let listed := takeUntilZero (disk.ind node.ind_pointer) 0 POINTERS_IND_BLOCK
      { fs₁ with
        free_bit_map :=
          set_bit_map (listed.foldl (fun m b => set_bit_map m b) fs₁.free_bit_map)
            node.ind_pointer,
        write_mask :=
          set_bit_map (listed.foldl (fun m b => set_bit_map m b) fs₁.write_mask)
            node.ind_pointer }
    else fs₁
  { fs₂ with i_node := upd fs₂.i_node inn init_node }

/-- `rm_file_from_dir`: remove the first matching live-directory entry
(the full disk dump only mirrors in-memory state). -/
def rm_file_from_dir (fs : SFileSystem) (disk : Disk) (name : List Nat) : Int × SFileSystem :=
  match findIdx? (fun i => strncmpEq MAX_NAME_LENGTH (fs.directory 0 i).name name)
      0 MAX_FILES with
  | none => (-1, fs)
  | some i =>
    let fs₁ := rm_file_from_disk fs disk 0 i
    (0, { fs₁ with directory := upd2 fs₁.directory 0 i init_dir_entry })

/-- `ssfs_remove`: clears matching fds first, then removes from the
directory — also on the not-found path. -/
def ssfs_remove (st : St) (file : List Nat) : Int × St :=
  let oft₁ := rm_fd st.oft file
  match rm_file_from_dir st.fs st.disk file with
  | (r, fs₁) => (r, { st with fs := fs₁, oft := oft₁ })

/-! ## Seek -/

/-- `seek_block`. -/
def seek_block (st : St) (fileID : Nat) (loc : Int) : Int :=
  if loc < 0 then -1
  else
    let block_in_file := (loc.tdiv (Int.ofNat NUMBER_OF_BYTES_BLOCK)).toNat
    let inn := (st.oft fileID).entry.i_node_number
    let node := st.fs.i_node inn
    if block_in_file < NUMBER_OF_POINTERS then
      if node.pointer block_in_file ≠ 0 then Int.ofNat (node.pointer block_in_file) else -1
    else
      if node.ind_pointer = 0 then -1
      else
        let b := st.disk.ind node.ind_pointer (block_in_file - NUMBER_OF_POINTERS)
        if b ≠ 0 then Int.ofNat b else -1

/-- `seek_char`. -/
def seek_char (st : St) (fileID : Nat) (loc : Int) : Int :=
  if loc < 0 then -1
  else
    let char_in_block := loc.tmod (Int.ofNat NUMBER_OF_BYTES_BLOCK)
    let inn := (st.oft fileID).entry.i_node_number
    let block := seek_block st fileID loc
    if block = get_last_file_block st.fs st.disk inn then
      if char_in_block ≤ get_end_char st.fs st.disk inn then char_in_block else -1
    else char_in_block

/-- `ssfs_frseek`. -/
def ssfs_frseek (st : St) (fileID : Nat) (loc : Int) : Int × St :=
  let block := seek_block st fileID loc
  let char_in_block := seek_char st fileID loc
  if block < 0 ∨ char_in_block < 0 then (-1, st)
  else
    (0, { st with
          oft := upd st.oft fileID
            ({ st.oft fileID with
               read_pointer := ⟨block.toNat, char_in_block.toNat⟩ }) })

/-- `ssfs_fwseek`. -/
def ssfs_fwseek (st : St) (fileID : Nat) (loc : Int) : Int × St :=
  let block := seek_block st fileID loc
  let char_in_block := seek_char st fileID loc
  if block < 0 ∨ char_in_block < 0 then (-1, st)
  else
    (0, { st with
          oft := upd st.oft fileID
            ({ st.oft fileID with
               write_pointer := ⟨block.toNat, char_in_block.toNat⟩ }) })

/-! ## Write -/

/-- The byte-copy inner loop of `ssfs_fwrite`:
`while (cc < BS && buf_pos < length) { block[cc++] = buf[buf_pos++];
if (nb || cb == lb && cc > lc) inc_file_size(..., 1); }`.
Returns the unwritten rest of `buf`, the new `cc`, the block bytes and
the filesystem with any size increments. -/
def writeChars (inn : Nat) (lb lc nb : Int) (cb : Nat) :
    List Nat → Nat → (Nat → Nat) → SFileSystem →
      List Nat × Nat × (Nat → Nat) × SFileSystem
  | [], cc, blk, fs => ([], cc, blk, fs)
  | b :: rest, cc, blk, fs =>
    if cc < NUMBER_OF_BYTES_BLOCK then
      let cc' := cc + 1
      let fs' := if nb ≠ 0 ∨ (Int.ofNat cb = lb ∧ Int.ofNat cc' > lc)
                 then inc_file_size fs inn 1 else fs
      writeChars inn lb lc nb cb rest cc' (upd blk cc b) fs'
    else (b :: rest, cc, blk, fs)

/-- One round of the `FILL_BLOCK` loop after cursor normalization: load
block `cb`, run the inner copy, store the block, and either fall through
to `EXIT` (buffer exhausted) or take the `goto`. -/
def fwriteRound (inn : Nat) (lb lc : Int)
    (go : Int → Nat → Nat → List Nat → SFileSystem → Disk →
      Nat × Nat × List Nat × SFileSystem × Disk)
    (nb : Int) (cb cc : Nat) (buf : List Nat) (fs : SFileSystem) (disk : Disk) :
    Nat × Nat × List Nat × SFileSystem × Disk :=
  let w := writeChars inn lb lc nb cb buf cc (disk.data cb) fs
  let disk' := { disk with data := upd disk.data cb w.2.2.1 }
  if w.1.isEmpty then (cb, w.2.1, w.1, w.2.2.2, disk')
  else go nb cb w.2.1 w.1 w.2.2.2 disk'

/-- The `FILL_BLOCK` loop of `ssfs_fwrite`.  Each round either writes at
least one byte or exits, so `length + 1` rounds of fuel suffice; the
fuel-exhaustion case coincides with the `EXIT` path.  Returns the final
`(cb, cc)`, the unwritten rest of the buffer, and the new state. -/
def fwriteGo (inn : Nat) (lb lc : Int) :
    Nat → Int → Nat → Nat → List Nat → SFileSystem → Disk →
      Nat × Nat × List Nat × SFileSystem × Disk
  | 0, _nb, cb, cc, buf, fs, disk => (cb, cc, buf, fs, disk)
  | fuel + 1, nb, cb, cc, buf, fs, disk =>
    if cc ≥ NUMBER_OF_BYTES_BLOCK then
      let tb := get_next_file_block fs disk inn cb
      if tb < 0 then
        match add_block fs disk inn with
        | (nb', fs₁, disk₁) =>
          if nb' < 0 then (cb, cc, buf, fs₁, disk₁)
          else fwriteRound inn lb lc (fwriteGo inn lb lc fuel) nb'
                 (if nb' ≠ 0 then nb'.toNat else tb.toNat) 0 buf fs₁ disk₁
      else
        fwriteRound inn lb lc (fwriteGo inn lb lc fuel) nb
          (if nb ≠ 0 then nb.toNat else tb.toNat) 0 buf fs disk
    else fwriteRound inn lb lc (fwriteGo inn lb lc fuel) nb cb cc buf fs disk

/-- `ssfs_fwrite`.  The C `(buf, length)` pair is the byte list `buf`;
the returned `Int` is `buf_pos`, the number of bytes written. -/
def ssfs_fwrite (st : St) (fileID : Nat) (buf : List Nat) : Int × St :=
  if buf.isEmpty then (0, st)
  else
    let inn := (st.oft fileID).entry.i_node_number
    let lb := get_last_file_block st.fs st.disk inn
    let lc := get_end_char st.fs st.disk inn
    let cb := (st.oft fileID).write_pointer.block
    let cc := (st.oft fileID).write_pointer.c_ptr
    let r := fwriteGo inn lb lc (buf.length + 1) 0 cb cc buf st.fs st.disk
    (Int.ofNat (buf.length - r.2.2.1.length),
     { st with fs := r.2.2.2.1, disk := r.2.2.2.2,
               oft := upd st.oft fileID
                 ({ st.oft fileID with write_pointer := ⟨r.1, r.2.1⟩ }) })

/-! ## Read -/

/-- The byte-copy inner loop of `ssfs_fread`:
`while (cc < BS && buf_pos < length && !(cb == lb && cc >= lc))`.
Recursion is on the remaining request; returns the bytes produced and
the new `cc`. -/
def readChars (lb lc : Int) (cb : Nat) (blk : Nat → Nat) :
    Nat → Nat → List Nat × Nat
  | 0, cc => ([], cc)
  | len + 1, cc =>
    if cc < NUMBER_OF_BYTES_BLOCK ∧ ¬(Int.ofNat cb = lb ∧ Int.ofNat cc ≥ lc) then
      match readChars lb lc cb blk len (cc + 1) with
      | (bs, cc') => (blk cc :: bs, cc')
    else ([], cc)

/-- One round of the `FILL_BLOCK` loop of `ssfs_fread` after cursor
normalization. -/
def freadRound (lb lc : Int)
    (go : Nat → Nat → Nat → List Nat × Nat × Nat)
    (disk : Disk) (cb cc len : Nat) : List Nat × Nat × Nat :=
  let r := readChars lb lc cb (disk.data cb) len cc
  let len' := len - r.1.length
  if 0 < len' ∧ ¬(Int.ofNat cb = lb ∧ Int.ofNat r.2 ≥ lc) then
    let g := go cb r.2 len'
    (r.1 ++ g.1, g.2.1, g.2.2)
  else (r.1, cb, r.2)

/-- The `FILL_BLOCK` loop of `ssfs_fread`; fuel as for `fwriteGo`. -/
def freadGo (fs : SFileSystem) (disk : Disk) (inn : Nat) (lb lc : Int) :
    Nat → Nat → Nat → Nat → List Nat × Nat × Nat
  | 0, cb, cc, _ => ([], cb, cc)
  | fuel + 1, cb, cc, len =>
    if cc ≥ NUMBER_OF_BYTES_BLOCK then
      let tb := get_next_file_block fs disk inn cb
      if tb < 0 then ([], cb, cc)
      else freadRound lb lc (freadGo fs disk inn lb lc fuel) disk tb.toNat 0 len
    else freadRound lb lc (freadGo fs disk inn lb lc fuel) disk cb cc len

/-- `ssfs_fread`.  The returned `Int` is the C return value; the byte
list is what the call stores into the caller's buffer. -/
def ssfs_fread (st : St) (fileID : Nat) (length : Nat) : Int × List Nat × St :=
  if isEmptyName (st.oft fileID).entry.name then (-1, [], st)
  else if length = 0 then (0, [], st)
  else
    let inn := (st.oft fileID).entry.i_node_number
    let lb := get_last_file_block st.fs st.disk inn
    let lc := get_end_char st.fs st.disk inn
    let cb := (st.oft fileID).read_pointer.block
    let cc := (st.oft fileID).read_pointer.c_ptr
    let r := freadGo st.fs st.disk inn lb lc (length + 1) cb cc length
    (Int.ofNat r.1.length, r.1,
     { st with
       oft := upd st.oft fileID
         ({ st.oft fileID with read_pointer := ⟨r.2.1, r.2.2⟩ }) })

/-! ## Shadowing -/

/-- `copy_block`: raw block copy on the data view. -/
def copy_block (disk : Disk) (blk_src blk_dst : Nat) : Disk :=
  { disk with data := upd disk.data blk_dst (disk.data blk_src) }

/-- The `for (i = 1; i < NUMBER_OF_POINTERS; i++)` loop of `copy_file`;
`some r` is an early `return r`, `none` falls through.  Exactly as in
the source, the freshly allocated `blk` is never stored anywhere: the
copy goes to `n_copy->pointer[i]` as it currently is. -/
def copy_file_direct (inn_orig inn_copy : Nat) :
    Nat → Nat → SFileSystem → Disk → Option Int × SFileSystem × Disk
  | _, 0, fs, disk => (none, fs, disk)
  | i, n + 1, fs, disk =>
    if (fs.i_node inn_orig).pointer i = 0 then (some 0, fs, disk)
    else
      match get_free_block fs with
      | (blk, fs₁) =>
        if blk < 0 then (some (-1), fs₁, disk)
        else
          let disk₁ := copy_block disk ((fs₁.i_node inn_orig).pointer i)
            ((fs₁.i_node inn_copy).pointer i)
          copy_file_direct inn_orig inn_copy (i + 1) n fs₁ disk₁

/-- The indirect-block loop of `copy_file`.  `copy_ptrs` is the local
`ind_node_block_copy` (all zeros, and never flushed by the source). -/
def copy_file_ind (orig_ptrs copy_ptrs : Nat → Nat) :
    Nat → Nat → SFileSystem → Disk → Int × SFileSystem × Disk
  | _, 0, fs, disk => (0, fs, disk)
  | i, n + 1, fs, disk =>
    if orig_ptrs i = 0 then (0, fs, disk)
    else
      match get_free_block fs with
      | (blk, fs₁) =>
        if blk < 0 then (-1, fs₁, disk)
        else copy_file_ind orig_ptrs copy_ptrs (i + 1) n fs₁
               (copy_block disk (orig_ptrs i) (copy_ptrs i))

/-- `copy_file` (sfs_api lines 717–757), modelled exactly as written. -/
def copy_file (fs : SFileSystem) (disk : Disk) (inn_orig inn_copy : Nat) :
    Int × SFileSystem × Disk :=
  let fs := { fs with
              i_node := upd fs.i_node inn_copy
                ({ fs.i_node inn_copy with size := (fs.i_node inn_orig).size }) }
  let disk := copy_block disk ((fs.i_node inn_orig).pointer 0)
      ((fs.i_node inn_copy).pointer 0)
  match copy_file_direct inn_orig inn_copy 1 (NUMBER_OF_POINTERS - 1) fs disk with
  | (some r, fs, disk) => (r, fs, disk)
  | (none, fs, disk) =>
    if (fs.i_node inn_orig).ind_pointer = 0 then (0, fs, disk)
    else
      let orig_ptrs := disk.ind ((fs.i_node inn_orig).ind_pointer)
      match get_free_block fs with
      | (blk, fs₁) =>
        if blk < 0 then (-1, fs₁, disk)
        else
          let fs₂ := { fs₁ with
                       i_node := upd fs₁.i_node inn_copy
                         ({ fs₁.i_node inn_copy with ind_pointer := blk.toNat }) }
          copy_file_ind orig_ptrs (fun _ => 0) 0 POINTERS_IND_BLOCK fs₂ disk

/-- The entry loop of `free_shadow_directory`. -/
def free_shadow_loop (disk : Disk) (shadow : Nat) : Nat → Nat → SFileSystem → SFileSystem
  | _, 0, fs => fs
  | i, n + 1, fs =>
    let fs₁ :=
      if isEmptyName (fs.directory shadow i).name then fs
      else
        let fs' := rm_file_from_disk fs disk shadow i
        { fs' with directory := upd2 fs'.directory shadow i init_dir_entry }
    free_shadow_loop disk shadow (i + 1) n fs₁

/-- `free_shadow_directory`. -/
def free_shadow_directory (fs : SFileSystem) (disk : Disk) (shadow : Nat) : SFileSystem :=
  free_shadow_loop disk shadow 0 MAX_FILES fs

/-- The entry loop of `restore_shadow_directory`, including its `FAILED:`
rollback (`rm_file_from_dir` on the entry's name, then `return -1`). -/
def restore_loop (shadow : Nat) : Nat → Nat → SFileSystem → Disk → Int × SFileSystem × Disk
  | _, 0, fs, disk => (0, fs, disk)
  | i, n + 1, fs, disk =>
    if isEmptyName (fs.directory shadow i).name then restore_loop shadow (i + 1) n fs disk
    else
      let name := (fs.directory shadow i).name
      match add_file_to_dir fs name with
      | (e, _, fs₁) =>
        if e < 0 then
          match rm_file_from_dir fs₁ disk name with
          | (_, fs₂) => (-1, fs₂, disk)
        else
          let inn_orig := (fs₁.directory shadow i).i_node_number
          let inn_copy := (fs₁.directory 0 e.toNat).i_node_number
          match copy_file fs₁ disk inn_orig inn_copy with
          | (err, fs₂, disk₂) =>
            if err < 0 then
              match rm_file_from_dir fs₂ disk₂ name with
              | (_, fs₃) => (-1, fs₃, disk₂)
            else restore_loop shadow (i + 1) n fs₂ disk₂

/-- `restore_shadow_directory`.  The C function has no `return` after its
loop; no caller reads the value, and the fall-through result is
modelled as the loop's 0. -/
def restore_shadow_directory (fs : SFileSystem) (disk : Disk) (shadow : Int) :
    Int × SFileSystem × Disk :=
  if shadow ≤ 0 ∨ shadow ≥ Int.ofNat MAX_DIRS_INCL_SHAD then (-1, fs, disk)
  else restore_loop shadow.toNat 0 MAX_FILES fs disk

/-- `ssfs_commit`: free the oldest shadow, shift the FIFO (the downward
loop copies each slot from its not-yet-overwritten predecessor), clear
slot 0, and repopulate it as a deep copy of slot 1. -/
def ssfs_commit (st : St) : Int × St :=
  let fs₁ := free_shadow_loop st.disk (MAX_DIRS_INCL_SHAD - 1) 0 MAX_FILES st.fs
  let fs₂ := { fs₁ with directory := fun s =>
      if 1 ≤ s ∧ s ≤ MAX_DIRS_INCL_SHAD - 1 then fs₁.directory (s - 1) else fs₁.directory s }
  let fs₃ := { fs₂ with directory := init_dir_slot fs₂.directory 0 }
  match restore_shadow_directory fs₃ st.disk 1 with
  | (_, fs₄, disk₄) => (0, { st with fs := fs₄, disk := disk₄ })

/-- `ssfs_restore` (also missing its final `return`; no claim reads the
fall-through value, modelled as 0). -/
def ssfs_restore (st : St) (cnum : Int) : Int × St :=
  if cnum = 0 then (0, st)
  else if cnum < 0 ∨ cnum ≥ Int.ofNat MAX_DIRS_INCL_SHAD then (-1, st)
  else
    let fs₁ := free_shadow_loop st.disk 0 0 MAX_FILES st.fs
    let fs₂ := { fs₁ with directory := init_dir_slot fs₁.directory 0 }
    match restore_shadow_directory fs₂ st.disk cnum with
    | (_, fs₃, disk₃) => (0, { st with fs := fs₃, disk := disk₃ })

/-! ## Enumeration and size lookup -/

/-- `ssfs_get_next_file_name`: the produced name (if any; `none` is the
wrap signal) and the new cursor `gnfni`.  The source always returns 0. -/
def ssfs_get_next_file_name (fs : SFileSystem) (gnfni : Nat) : Option (List Nat) × Nat :=
  if gnfni = MAX_FILES then (none, 0)
  else
    match findIdx? (fun i => !isEmptyName (fs.directory 0 i).name) gnfni (MAX_FILES - gnfni) with
    | some i => (some (fs.directory 0 i).name, i + 1)
    | none => (none, 0)

/-- `ssfs_get_file_size`. -/
def ssfs_get_file_size (fs : SFileSystem) (path : List Nat) : Int :=
  match findIdx? (fun i => strncmpEq MAX_NAME_LENGTH (fs.directory 0 i).name path)
      0 MAX_FILES with
  | some i => (fs.i_node ((fs.directory 0 i).i_node_number)).size
  | none => -1

/-! ## String lemmas -/

theorem strncmpEq_refl : ∀ (n : Nat) (a : List Nat), strncmpEq n a a = true := by
  intro n
  induction n with
  | zero => intro a; rfl
  | succ n ih =>
    intro a
    cases a with
    | nil => rfl
    | cons x xs => simp [strncmpEq, ih]

/-- `strncmp(·, ·, n)` only looks at the first `n` bytes of each side. -/
theorem strncmpEq_congr :
    ∀ (n : Nat) (a a' b b' : List Nat), a.take n = a'.take n → b.take n = b'.take n →
      strncmpEq n a b = strncmpEq n a' b' := by
  intro n
  induction n with
  | zero => intro a a' b b' _ _; rfl
  | succ n ih =>
    intro a a' b b' ha hb
    cases a with
    | nil =>
      have ha' : a' = [] := by
        cases a' with
        | nil => rfl
        | cons y ys => simp [List.take] at ha
      subst ha'
      cases b with
      | nil =>
        have hb' : b' = [] := by
          cases b' with
          | nil => rfl
          | cons y ys => simp [List.take] at hb
        subst hb'; rfl
      | cons y ys =>
        cases b' with
        | nil => simp [List.take] at hb
        | cons z zs => rfl
    | cons x xs =>
      cases a' with
      | nil => simp [List.take] at ha
      | cons x' xs' =>
        simp only [List.take, List.cons.injEq] at ha
        obtain ⟨rfl, hxs⟩ := ha
        cases b with
        | nil =>
          have hb' : b' = [] := by
            cases b' with
            | nil => rfl
            | cons z zs => simp [List.take] at hb
          subst hb'; rfl
        | cons y ys =>
          cases b' with
          | nil => simp [List.take] at hb
          | cons y' ys' =>
            simp only [List.take, List.cons.injEq] at hb
            obtain ⟨rfl, hys⟩ := hb
            simp only [strncmpEq, ih xs xs' ys ys' hxs hys]

/-! ## Concrete states used by counterexamples and witnesses -/

/-- A one-block file: name `"a"` (byte 97) on inode 5, data block 100,
size 5 with bytes `1,2,3,4,5`. -/
def oneFileNode : SNode := ⟨5, upd (fun _ => 0) 0 100, 0⟩

/-- The filesystem holding just `oneFileNode` in live-directory entry 0. -/
def oneFileFS : SFileSystem :=
  { i_node := upd (fun _ => init_node) 5 oneFileNode,
    directory := fun s i => if s = 0 ∧ i = 0 then ⟨[97], 5⟩ else init_dir_entry,
    free_bit_map := fun b => decide (FIRST_DATA_BLOCK ≤ b ∧ b ≤ LAST_DATA_BLOCK ∧ b ≠ 100),
    write_mask := fun _ => false }

/-- The disk for `oneFileFS`: block 100 holds bytes `1..5`. -/
def oneFileDisk : Disk :=
  { data := fun b i => if b = 100 ∧ i < 5 then i + 1 else 0,
    ind := fun _ _ => 0 }

/-- fd 0 open on the one file, read cursor at the start, write cursor at
end of file. -/
def oneFileOft : Nat → SFd :=
  upd (fun _ => init_fd) 0 ⟨⟨[97], 5⟩, ⟨100, 0⟩, ⟨100, 5⟩⟩

def oneFileSt : St := ⟨oneFileFS, oneFileOft, oneFileDisk⟩

/-- `oneFileSt` with the live directory emptied but fd 0 still open on
the stale name — the "open but no longer in the directory" window. -/
def staleFdSt : St :=
  { oneFileSt with fs := { oneFileFS with directory := fun _ _ => init_dir_entry } }

/-! ## C1 -/

/-- A two-block file on inode 5: blocks 100 and 101, size 1500; block
100 holds bytes `10`, block 101 holds bytes `20`. -/
def twoBlockNode : SNode :=
  ⟨1500, fun i => if i = 0 then 100 else if i = 1 then 101 else 0, 0⟩

def twoBlockFS : SFileSystem :=
  { i_node := upd (fun _ => init_node) 5 twoBlockNode,
    directory := fun s i => if s = 0 ∧ i = 0 then ⟨[97], 5⟩ else init_dir_entry,
    free_bit_map := fun b => decide (FIRST_DATA_BLOCK ≤ b ∧ b ≤ LAST_DATA_BLOCK ∧ b ≠ 100 ∧ b ≠ 101),
    write_mask := fun _ => false }

def twoBlockDisk : Disk :=
  { data := fun b _ => if b = 100 then 10 else if b = 101 then 20 else 0,
    ind := fun _ _ => 0 }

def twoBlockSt : St := ⟨twoBlockFS, fun _ => init_fd, twoBlockDisk⟩

/-- C1.  "After commit() followed by any sequence of mutating operations
on slot 0, restore(1) restores the live directory to exactly the name
set present at commit time, and each restored file has the same size and
the same byte contents as at commit time (the deep-copied clone is
byte-identical, with different block numbers)."
The code violates this for any file larger than one block: `copy_file`
calls `get_free_block` for each extra source block but never stores the
allocated block into the clone's pointer list, so the copy goes to
`n_copy->pointer[i]` (which is 0) and the clone keeps a single block.
Here the committed file has size 1500 and bytes `20` in its second
block; after `commit()` and `restore(1)` the restored file still reports
size 1500 but owns exactly one block, its second pointer is 0, and the
committed second-block contents are gone from the clone's chain. -/
theorem claim1_commit_restore_loses_blocks :
    (twoBlockFS.i_node 5).pointer 1 = 101 ∧
    twoBlockDisk.data 101 0 = 20 ∧
    get_num_file_blocks twoBlockFS twoBlockDisk 5 = 2 ∧
    ((ssfs_restore (ssfs_commit twoBlockSt).2 1).2.fs.directory 0 0).name = [97] ∧
    ssfs_get_file_size (ssfs_restore (ssfs_commit twoBlockSt).2 1).2.fs [97] = 1500 ∧
    get_num_file_blocks (ssfs_restore (ssfs_commit twoBlockSt).2 1).2.fs
      (ssfs_restore (ssfs_commit twoBlockSt).2 1).2.disk
      (((ssfs_restore (ssfs_commit twoBlockSt).2 1).2.fs.directory 0 0).i_node_number) = 1 ∧
    ((ssfs_restore (ssfs_commit twoBlockSt).2 1).2.fs.i_node
      (((ssfs_restore (ssfs_commit twoBlockSt).2 1).2.fs.directory 0 0).i_node_number)).pointer 1
      = 0 := by
  decide

/-! ## C2 -/

/-- The upper end of the data region as the spec's layout table states
it: `LAST_DATA = NB - 2 - MAX_DIRS` (one more than the code's
`LAST_DATA_BLOCK = NB - 1 - 2 - MAX_DIRS`). -/
def specLastData : Nat := NUMBER_OF_BLOCKS - 2 - MAX_DIRS_INCL_SHAD

/-- A filesystem whose only free bit is block `specLastData` (1017). -/
def onlyBlock1017FreeFS : SFileSystem :=
  { i_node := fun _ => init_node,
    directory := fun _ _ => init_dir_entry,
    free_bit_map := fun b => decide (b = specLastData),
    write_mask := fun _ => false }

/-- C2 counterexample.  The claim says the allocator scans up to
`LAST_DATA = NB-2-MAX_DIRS = 1017` inclusive and fails iff no bit in
that range is set.  Block 1017 lies in the claimed range and is set,
yet `get_free_block` returns `-1`: the code's loop stops at
`LAST_DATA_BLOCK = NB-1-2-MAX_DIRS = 1016`. -/
theorem claim2_scan_range_cex :
    FIRST_DATA_BLOCK ≤ specLastData ∧
    get_bit_map onlyBlock1017FreeFS.free_bit_map specLastData = true ∧
    (get_free_block onlyBlock1017FreeFS).1 = -1 := by
  decide

/-- C2 (amended).  The block allocator scans exactly
`FIRST_DATA_BLOCK = 1 + BLOCKS_I_NODE_FILE` through
`LAST_DATA_BLOCK = NB - 3 - MAX_DIRS` (= 1016) inclusive, returns the
first block of that range whose free bit is set after clearing that bit,
fails (`-1`) iff no bit in the range is set, and never returns a block
outside the range. -/
theorem claim2_get_free_block_first_free (fs : SFileSystem) :
    ((get_free_block fs).1 = -1 ↔
      ∀ b, FIRST_DATA_BLOCK ≤ b → b ≤ LAST_DATA_BLOCK → fs.free_bit_map b = false) ∧
    ∀ b : Nat, (get_free_block fs).1 = Int.ofNat b →
      FIRST_DATA_BLOCK ≤ b ∧ b ≤ LAST_DATA_BLOCK ∧
      fs.free_bit_map b = true ∧
      (∀ b', FIRST_DATA_BLOCK ≤ b' → b' < b → fs.free_bit_map b' = false) ∧
      (get_free_block fs).2 = { fs with free_bit_map := clr_bit_map fs.free_bit_map b } := by
  have hrange : FIRST_DATA_BLOCK + (LAST_DATA_BLOCK + 1 - FIRST_DATA_BLOCK)
      = LAST_DATA_BLOCK + 1 := by decide
  unfold get_free_block
  cases h : findIdx? (fun i => get_bit_map fs.free_bit_map i)
      FIRST_DATA_BLOCK (LAST_DATA_BLOCK + 1 - FIRST_DATA_BLOCK) with
  | none =>
    have hall := findIdx?_none.mp h
    rw [hrange] at hall
    constructor
    · simp only [true_iff]
      intro b h1 h2
      exact hall b h1 (by omega)
    · intro b hb
      simp at hb
  | some i =>
    obtain ⟨h1, h2, h3, h4⟩ := findIdx?_some h
    rw [hrange] at h2
    constructor
    · constructor
      · intro hc; simp at hc
      · intro hall
        have := hall i h1 (by omega)
        rw [get_bit_map] at h3
        rw [h3] at this; cases this
    · intro b hb
      have hib : i = b := by
        simpa using hb
      subst hib
      refine ⟨h1, by omega, h3, ?_, rfl⟩
      intro b' hb1 hb2
      exact h4 b' hb1 hb2

/-! ## C3 -/

/-- An inode (number 5) whose 14 direct pointers are `100..113` and
whose indirect block 300 lists 256 blocks `400..655`: direct and
indirect pointers are all full. -/
def fullNode : SNode :=
  ⟨(270 : Int) * 1024, fun i => if i < 14 then 100 + i else 0, 300⟩

/-- Filesystem around `fullNode`; exactly one free block, number 50. -/
def fullNodeFS : SFileSystem :=
  { i_node := upd (fun _ => init_node) 5 fullNode,
    directory := fun _ _ => init_dir_entry,
    free_bit_map := fun b => decide (b = 50),
    write_mask := fun _ => false }

def fullNodeDisk : Disk :=
  { data := fun _ _ => 0,
    ind := fun b i => if b = 300 ∧ i < 256 then 400 + i else 0 }

/-- C3.  "For every inode whose direct pointers and indirect block are
already full, append_block allocates a data block, fails (returns -1),
and before returning releases the newly allocated data block back to the
free bitmap, so on every failure path of append_block the free bitmap is
unchanged from the state before the call."
The code contradicts this on exactly that path: with all 14 direct
pointers and all 256 indirect slots nonzero and block 50 free,
`add_block` takes block 50 from `get_free_block` (clearing its bit),
finds no pointer slot, prints "Out of block pointers" and returns `-1`
without the `set_bit_map` release that the other failure path performs,
so block 50 stays marked allocated — the block is leaked and the free
bitmap is changed by the failing call. -/
theorem claim3_add_block_leaks_on_exhaustion :
    (∀ i, i < NUMBER_OF_POINTERS → (fullNodeFS.i_node 5).pointer i ≠ 0) ∧
    (∀ i, i < POINTERS_IND_BLOCK →
      fullNodeDisk.ind ((fullNodeFS.i_node 5).ind_pointer) i ≠ 0) ∧
    fullNodeFS.free_bit_map 50 = true ∧
    (add_block fullNodeFS fullNodeDisk 5).1 = -1 ∧
    ((add_block fullNodeFS fullNodeDisk 5).2.1).free_bit_map 50 = false := by
  decide

/-! ## C4 -/

theorem strncmpEq_comm : ∀ (n : Nat) (a b : List Nat), strncmpEq n a b = strncmpEq n b a := by
  intro n
  induction n with
  | zero => intro a b; rfl
  | succ n ih =>
    intro a b
    cases a with
    | nil => cases b with
      | nil => rfl
      | cons y ys => rfl
    | cons x xs =>
      cases b with
      | nil => rfl
      | cons y ys =>
        simp only [strncmpEq, ih xs ys]
        have hbeq : (x == y) = (y == x) := by
          by_cases hxy : x = y
          · subst hxy; rfl
          · have h1 : (x == y) = false := by simpa using hxy
            have h2 : (y == x) = false := by
              simpa using fun h => hxy h.symm
            rw [h1, h2]
        rw [hbeq]

/-- C4 counterexample.  The claim says fopen of a name already in the
open-file table fails regardless of the directory.  With fd 0 open on
name `"a"` and the live directory empty, `fopen("a")` goes through
`fopen_new`, whose first loop finds the open entry and returns its fd
index 0 instead of `-1`. -/
theorem claim4_duplicate_open_cex :
    strncmpEq MAX_NAME_LENGTH ((staleFdSt.oft 0).entry.name) [97] = true ∧
    (∀ j, j < MAX_FILES →
      strncmpEq MAX_NAME_LENGTH ((staleFdSt.fs.directory 0 j).name) [97] = false) ∧
    (ssfs_fopen staleFdSt [97]).1 = 0 ∧
    (ssfs_fopen staleFdSt [97]).1 ≠ -1 := by
  decide

/-- C4 (amended).  For a name already present in the open-file table:
if the name is also present in the live directory, `fopen` fails
(`-1`); if the name is absent from the directory (and the table has a
free slot and the name is nonempty), `fopen` instead returns the index
of the first matching open-file-table entry and leaves the state
untouched. -/
theorem claim4_fopen_open_name (st : St) (name : List Nat)
    (hopen : ∃ i, i < MAX_FD ∧
      strncmpEq MAX_NAME_LENGTH ((st.oft i).entry.name) name = true) :
    ((∃ j, j < MAX_FILES ∧
        strncmpEq MAX_NAME_LENGTH ((st.fs.directory 0 j).name) name = true) →
      (ssfs_fopen st name).1 = -1) ∧
    (name ≠ [] →
      (∀ j, j < MAX_FILES →
        strncmpEq MAX_NAME_LENGTH ((st.fs.directory 0 j).name) name = false) →
      (∃ k, k < MAX_FD ∧ isEmptyName ((st.oft k).entry.name) = true) →
      ∃ i, (ssfs_fopen st name).1 = Int.ofNat i ∧
        strncmpEq MAX_NAME_LENGTH ((st.oft i).entry.name) name = true ∧
        (ssfs_fopen st name).2 = st) := by
  obtain ⟨i₀, hi₀, hmatch₀⟩ := hopen
  constructor
  · rintro ⟨j, hj, hjmatch⟩
    unfold ssfs_fopen
    by_cases hfull : check_fd_full st.oft = true
    · rw [if_pos hfull]
    · rw [if_neg hfull]
      by_cases hlen : name.length = 0
      · rw [if_pos hlen]
      · rw [if_neg hlen]
        cases hdir : findIdx?
            (fun i => strncmpEq MAX_NAME_LENGTH (st.fs.directory 0 i).name name)
            0 MAX_FILES with
        | none =>
          have := findIdx?_none.mp hdir j (Nat.zero_le _) (by omega)
          rw [hjmatch] at this; cases this
        | some k =>
          have hsome : (findIdx?
              (fun i => strncmpEq MAX_NAME_LENGTH name (st.oft i).entry.name)
              0 MAX_FD).isSome = true := by
            cases hfind : findIdx?
                (fun i => strncmpEq MAX_NAME_LENGTH name (st.oft i).entry.name)
                0 MAX_FD with
            | none =>
              have := findIdx?_none.mp hfind i₀ (Nat.zero_le _) (by omega)
              rw [strncmpEq_comm, hmatch₀] at this; cases this
            | some l => rfl
          simp only [fopen_existing, hsome, if_true]
  · intro hne hnodir ⟨k, hk, hkempty⟩
    unfold ssfs_fopen
    have hfull : check_fd_full st.oft = false := by
      unfold check_fd_full
      cases hfind : findIdx? (fun i => isEmptyName (st.oft i).entry.name) 0 MAX_FD with
      | none =>
        have := findIdx?_none.mp hfind k (Nat.zero_le _) (by omega)
        rw [hkempty] at this; cases this
      | some l => rfl
    rw [if_neg (by rw [hfull]; exact Bool.false_ne_true)]
    rw [if_neg (by simpa using hne)]
    have hdir : findIdx?
        (fun i => strncmpEq MAX_NAME_LENGTH (st.fs.directory 0 i).name name)
        0 MAX_FILES = none := by
      rw [findIdx?_none]
      intro j _ hj2
      exact hnodir j (by omega)
    rw [hdir]
    unfold fopen_new
    cases hfind : findIdx?
        (fun i => strncmpEq MAX_NAME_LENGTH (st.oft i).entry.name name) 0 MAX_FD with
    | none =>
      have := findIdx?_none.mp hfind i₀ (Nat.zero_le _) (by omega)
      rw [hmatch₀] at this; cases this
    | some l =>
      obtain ⟨_, _, hl, _⟩ := findIdx?_some hfind
      exact ⟨l, rfl, hl, rfl⟩

/-- C4 witness: at `oneFileSt` the name `"a"` is open on fd 0 and present
in the live directory, and `fopen("a")` returns `-1`. -/
theorem claim4_fopen_open_name_witness :
    (ssfs_fopen oneFileSt [97]).1 = -1 :=
  (claim4_fopen_open_name oneFileSt [97] ⟨0, by decide, by decide⟩).1
    ⟨0, by decide, by decide⟩

/-! ## C10 -/

/-- C10.  For every name `f` not present in the live directory,
`remove(f)` returns `-1` but still clears every open-file-table entry
whose name matches `f` before failing: the filesystem image and disk are
unchanged, yet matching descriptors are reset. -/
theorem claim10_remove_notfound_clears_fds (st : St) (file : List Nat)
    (h : ∀ j, j < MAX_FILES →
      strncmpEq MAX_NAME_LENGTH ((st.fs.directory 0 j).name) file = false) :
    (ssfs_remove st file).1 = -1 ∧
    (ssfs_remove st file).2.fs = st.fs ∧
    (ssfs_remove st file).2.disk = st.disk ∧
    ∀ i, i < MAX_FD →
      (ssfs_remove st file).2.oft i =
        if strncmpEq MAX_NAME_LENGTH ((st.oft i).entry.name) file = true
        then init_fd else st.oft i := by
  have hdir : findIdx?
      (fun i => strncmpEq MAX_NAME_LENGTH (st.fs.directory 0 i).name file)
      0 MAX_FILES = none := by
    rw [findIdx?_none]
    intro j _ hj2
    exact h j (by omega)
  unfold ssfs_remove rm_file_from_dir
  rw [hdir]
  refine ⟨rfl, rfl, rfl, ?_⟩
  intro i hi
  show rm_fd st.oft file i = _
  unfold rm_fd
  rw [if_pos hi]

/-- C10 witness: removing `"a"` at `staleFdSt` (fd 0 open on `"a"`, empty
directory) fails with `-1` yet resets fd 0. -/
theorem claim10_remove_notfound_clears_fds_witness :
    (ssfs_remove staleFdSt [97]).1 = -1 ∧
    isEmptyName ((ssfs_remove staleFdSt [97]).2.oft 0).entry.name = true := by
  have h := claim10_remove_notfound_clears_fds staleFdSt [97] (by decide)
  refine ⟨h.1, ?_⟩
  rw [h.2.2.2 0 (by decide)]
  decide

/-! ## C9 -/

/-- Comparing against `a` and against `b` agrees everywhere when `a` and
`b` share their first `MAX_NAME_LENGTH` bytes (name on the right). -/
theorem strncmpEq_name_congr {a b : List Nat}
    (h : a.take MAX_NAME_LENGTH = b.take MAX_NAME_LENGTH) :
    ∀ x, strncmpEq MAX_NAME_LENGTH x a = strncmpEq MAX_NAME_LENGTH x b :=
  fun x => strncmpEq_congr MAX_NAME_LENGTH x x a b rfl h

/-- Same with the name on the left. -/
theorem strncmpEq_name_congr_left {a b : List Nat}
    (h : a.take MAX_NAME_LENGTH = b.take MAX_NAME_LENGTH) :
    ∀ x, strncmpEq MAX_NAME_LENGTH a x = strncmpEq MAX_NAME_LENGTH b x :=
  fun x => strncmpEq_congr MAX_NAME_LENGTH a b x x h rfl

theorem take20_nil_iff {a b : List Nat}
    (h : a.take MAX_NAME_LENGTH = b.take MAX_NAME_LENGTH) : (a = []) ↔ (b = []) := by
  cases a with
  | nil =>
    cases b with
    | nil => simp
    | cons y ys => exact absurd h (by exact fun hc => List.noConfusion hc)
  | cons x xs =>
    cases b with
    | nil => exact absurd h (by exact fun hc => List.noConfusion hc)
    | cons y ys =>
      constructor
      · intro hc; cases hc
      · intro hc; cases hc

theorem add_file_to_dir_congr (fs : SFileSystem) {a b : List Nat}
    (h : a.take MAX_NAME_LENGTH = b.take MAX_NAME_LENGTH) :
    add_file_to_dir fs a = add_file_to_dir fs b := by
  simp only [add_file_to_dir, show strncpyName a = strncpyName b from h]

theorem create_open_file_entry_congr (fs : SFileSystem) (disk : Disk) (oft : Nat → SFd)
    {a b : List Nat} (h : a.take MAX_NAME_LENGTH = b.take MAX_NAME_LENGTH) :
    ∀ index, create_open_file_entry fs disk oft a index
      = create_open_file_entry fs disk oft b index := by
  intro index
  simp only [create_open_file_entry, set_fopen_name,
    show strncpyName a = strncpyName b from h]

theorem fopen_existing_congr (fs : SFileSystem) (disk : Disk) (oft : Nat → SFd)
    {a b : List Nat} (h : a.take MAX_NAME_LENGTH = b.take MAX_NAME_LENGTH) :
    ∀ index, fopen_existing fs disk oft a index = fopen_existing fs disk oft b index := by
  intro index
  simp only [fopen_existing, strncmpEq_name_congr_left h,
    create_open_file_entry_congr fs disk oft h]

theorem fopen_new_congr (fs : SFileSystem) (oft : Nat → SFd) {a b : List Nat}
    (h : a.take MAX_NAME_LENGTH = b.take MAX_NAME_LENGTH) :
    fopen_new fs oft a = fopen_new fs oft b := by
  simp only [fopen_new, strncmpEq_name_congr h, add_file_to_dir_congr fs h,
    show strncpyName a = strncpyName b from h]

theorem ssfs_fopen_congr (st : St) {a b : List Nat}
    (h : a.take MAX_NAME_LENGTH = b.take MAX_NAME_LENGTH) :
    ssfs_fopen st a = ssfs_fopen st b := by
  have hlen : (a.length = 0) = (b.length = 0) := by
    apply propext
    rw [List.length_eq_zero, List.length_eq_zero]
    exact take20_nil_iff h
  simp only [ssfs_fopen, hlen, strncmpEq_name_congr h,
    fopen_existing_congr st.fs st.disk st.oft h, fopen_new_congr st.fs st.oft h]

theorem rm_fd_congr (oft : Nat → SFd) {a b : List Nat}
    (h : a.take MAX_NAME_LENGTH = b.take MAX_NAME_LENGTH) :
    rm_fd oft a = rm_fd oft b := by
  funext i
  unfold rm_fd
  rw [strncmpEq_name_congr h]

theorem ssfs_remove_congr (st : St) {a b : List Nat}
    (h : a.take MAX_NAME_LENGTH = b.take MAX_NAME_LENGTH) :
    ssfs_remove st a = ssfs_remove st b := by
  simp only [ssfs_remove, rm_file_from_dir, strncmpEq_name_congr h, rm_fd_congr st.oft h]

theorem ssfs_get_file_size_congr (fs : SFileSystem) {a b : List Nat}
    (h : a.take MAX_NAME_LENGTH = b.take MAX_NAME_LENGTH) :
    ssfs_get_file_size fs a = ssfs_get_file_size fs b := by
  simp only [ssfs_get_file_size, strncmpEq_name_congr h]

/-- C9.  All file-name comparison and storage uses only the first
`NAME_MAX` (20) characters: two names agreeing on their first 20 bytes
are treated identically by `fopen`, `remove` and `get_file_size` (same
results and same successor states), and a name stored in a directory
entry is truncated to its first 20 bytes. -/
theorem claim9_names_use_first_20 (st : St) (fs : SFileSystem) (a b : List Nat) (i : Nat)
    (h : a.take MAX_NAME_LENGTH = b.take MAX_NAME_LENGTH) :
    ssfs_fopen st a = ssfs_fopen st b ∧
    ssfs_remove st a = ssfs_remove st b ∧
    ssfs_get_file_size st.fs a = ssfs_get_file_size st.fs b ∧
    ((add_file_to_dir fs a).1 = Int.ofNat i →
      ((add_file_to_dir fs a).2.2.directory 0 i).name = a.take MAX_NAME_LENGTH) := by
  refine ⟨ssfs_fopen_congr st h, ssfs_remove_congr st h,
    ssfs_get_file_size_congr st.fs h, ?_⟩
  intro hadd
  cases hfind : findIdx? (fun j => isEmptyName (fs.directory 0 j).name) 0 MAX_FILES with
  | none =>
    have hcontra : (-1 : Int) = (i : Int) := by
      simpa [add_file_to_dir, hfind, Int.ofNat_eq_natCast] using hadd
    omega
  | some j =>
    cases hnode : get_free_i_node fs with
    | none =>
      have hcontra : (-1 : Int) = (i : Int) := by
        simpa [add_file_to_dir, hfind, hnode, Int.ofNat_eq_natCast] using hadd
      omega
    | some inn =>
      cases hblk : get_free_block fs with
      | mk block fs₁ =>
        by_cases hneg : block < 0
        · have hcontra : (-1 : Int) = (i : Int) := by
            simpa [add_file_to_dir, hfind, hnode, hblk, hneg, Int.ofNat_eq_natCast] using hadd
          omega
        · simp only [add_file_to_dir, hfind, hnode, hblk, if_neg hneg] at hadd ⊢
          have hij : j = i := by simpa using hadd
          subst hij
          simp [upd2, upd, strncpyName]

/-- C9 witness: the 21-byte names `"aaaaaaaaaaaaaaaaaaaab"` and
`"aaaaaaaaaaaaaaaaaaaac"` agree on their first 20 bytes; `fopen`,
`remove` and `get_file_size` treat them identically on `oneFileSt`, and
storing the first gives its 20-byte truncation. -/
theorem claim9_names_use_first_20_witness :
    ssfs_fopen oneFileSt (List.replicate 20 97 ++ [98])
      = ssfs_fopen oneFileSt (List.replicate 20 97 ++ [99]) ∧
    ssfs_get_file_size oneFileFS (List.replicate 20 97 ++ [98])
      = ssfs_get_file_size oneFileFS (List.replicate 20 97 ++ [99]) := by
  have h := claim9_names_use_first_20 oneFileSt oneFileFS
    (List.replicate 20 97 ++ [98]) (List.replicate 20 97 ++ [99]) 0 (by decide)
  exact ⟨h.1, h.2.2.1⟩

/-! ## C8 -/

/-- `rm_file_from_disk` only touches the bitmaps and the inode, never a
directory slot. -/
theorem rm_file_from_disk_directory (fs : SFileSystem) (disk : Disk) (s e : Nat) :
    (rm_file_from_disk fs disk s e).directory = fs.directory := by
  simp only [rm_file_from_disk]
  split <;> rfl

/-- Any name produced by `ssfs_get_next_file_name` is the stored name of
some nonempty live-directory entry. -/
theorem get_next_file_name_mem (fs : SFileSystem) (g : Nat) (x : List Nat)
    (h : (ssfs_get_next_file_name fs g).1 = some x) :
    ∃ i, i < MAX_FILES ∧ isEmptyName (fs.directory 0 i).name = false ∧
      x = (fs.directory 0 i).name := by
  unfold ssfs_get_next_file_name at h
  by_cases hg : g = MAX_FILES
  · rw [if_pos hg] at h; cases h
  · rw [if_neg hg] at h
    cases hfind : findIdx? (fun i => !isEmptyName (fs.directory 0 i).name)
        g (MAX_FILES - g) with
    | none => rw [hfind] at h; cases h
    | some i =>
      rw [hfind] at h
      obtain ⟨h1, h2, h3, _⟩ := findIdx?_some hfind
      have hx : some ((fs.directory 0 i).name) = some x := h
      cases hx
      refine ⟨i, ?_, ?_, rfl⟩
      · by_cases hgle : g ≤ MAX_FILES
        · omega
        · rw [Nat.sub_eq_zero_of_le (by omega)] at hfind
          cases hfind
      · simpa using h3

/-- C8.  For every file name `f` present in the live directory (here: at
entry `j`, with no other entry matching `f`), after `remove(f)` returns
success, `get_file_size(f)` returns `-1`, and `f` is not produced by any
call of the `get_next_file_name` enumeration over the live directory. -/
theorem claim8_remove_then_lookup (st : St) (f : List Nat) (j : Nat)
    (hemp : isEmptyName f = false)
    (hj : j < MAX_FILES)
    (hmatch : strncmpEq MAX_NAME_LENGTH ((st.fs.directory 0 j).name) f = true)
    (huniq : ∀ k, k < MAX_FILES → k ≠ j →
      strncmpEq MAX_NAME_LENGTH ((st.fs.directory 0 k).name) f = false) :
    (ssfs_remove st f).1 = 0 ∧
    ssfs_get_file_size (ssfs_remove st f).2.fs f = -1 ∧
    ∀ g x, (ssfs_get_next_file_name (ssfs_remove st f).2.fs g).1 = some x → x ≠ f := by
  obtain ⟨c, cs, rfl⟩ : ∃ c cs, f = c :: cs := by
    cases f with
    | nil => simp [isEmptyName] at hemp
    | cons c cs => exact ⟨c, cs, rfl⟩
  have hfind : findIdx?
      (fun k => strncmpEq MAX_NAME_LENGTH (st.fs.directory 0 k).name (c :: cs))
      0 MAX_FILES = some j := by
    cases hf : findIdx?
        (fun k => strncmpEq MAX_NAME_LENGTH (st.fs.directory 0 k).name (c :: cs))
        0 MAX_FILES with
    | none =>
      have := findIdx?_none.mp hf j (Nat.zero_le _) (by omega)
      rw [hmatch] at this; cases this
    | some k =>
      obtain ⟨_, hk2, hk3, _⟩ := findIdx?_some hf
      by_cases hkj : k = j
      · subst hkj; rfl
      · have := huniq k (by omega) hkj
        rw [hk3] at this; cases this
  have hdir' : (ssfs_remove st (c :: cs)).2.fs.directory
      = upd2 st.fs.directory 0 j init_dir_entry := by
    simp only [ssfs_remove, rm_file_from_dir, hfind]
    show upd2 (rm_file_from_disk st.fs st.disk 0 j).directory 0 j init_dir_entry = _
    rw [rm_file_from_disk_directory]
  have hret : (ssfs_remove st (c :: cs)).1 = 0 := by
    simp only [ssfs_remove, rm_file_from_dir, hfind]
  have hentry : ∀ k, (ssfs_remove st (c :: cs)).2.fs.directory 0 k
      = if k = j then init_dir_entry else st.fs.directory 0 k := by
    intro k
    rw [hdir']
    by_cases hkj : k = j
    · subst hkj; simp [upd2, upd]
    · simp [upd2, upd, hkj]
  refine ⟨hret, ?_, ?_⟩
  · unfold ssfs_get_file_size
    have hnone : findIdx?
        (fun k => strncmpEq MAX_NAME_LENGTH
          ((ssfs_remove st (c :: cs)).2.fs.directory 0 k).name (c :: cs))
        0 MAX_FILES = none := by
      rw [findIdx?_none]
      intro k _ hk2
      rw [hentry k]
      by_cases hkj : k = j
      · rw [if_pos hkj]
        rfl
      · rw [if_neg hkj]
        exact huniq k (by omega) hkj
    rw [hnone]
  · intro g x hx hxf
    subst hxf
    obtain ⟨i, hi, hne, hxeq⟩ := get_next_file_name_mem _ g _ hx
    rw [hentry i] at hxeq
    by_cases hij : i = j
    · rw [if_pos hij] at hxeq
      cases hxeq
    · rw [if_neg hij] at hxeq
      have hmm := huniq i (by omega) hij
      rw [← hxeq] at hmm
      rw [strncmpEq_refl] at hmm
      cases hmm

/-- C8 witness: removing `"a"` from `oneFileSt` succeeds, and the size
lookup afterwards fails. -/
theorem claim8_remove_then_lookup_witness :
    (ssfs_remove oneFileSt [97]).1 = 0 ∧
    ssfs_get_file_size (ssfs_remove oneFileSt [97]).2.fs [97] = -1 := by
  have h := claim8_remove_then_lookup oneFileSt [97] 0
    (by decide) (by decide) (by decide) (by decide)
  exact ⟨h.1, h.2.1⟩

/-! ## The pointer chain (specification-side walker)

The claims about seek, read and write speak of "the inode's pointer
chain", "the last block" and "end of file".  `fileChain` is that chain,
written directly from the data model (§3.2/§4.3 of the spec): the
nonzero prefix of the direct pointers followed, when an indirect block
exists, by the nonzero prefix of the indirect block.  The loop-based
walker functions of the source are then proved against it. -/

/-- The chain of data blocks of an inode. -/
def fileChain (fs : SFileSystem) (disk : Disk) (inn : Nat) : List Nat :=
  let node := fs.i_node inn
  let d := takeUntilZero node.pointer 0 NUMBER_OF_POINTERS
  if node.ind_pointer = 0 then d
  else d ++ takeUntilZero (disk.ind node.ind_pointer) 0 POINTERS_IND_BLOCK

/-- Well-formedness of an inode's pointer structure (spec §3.3,
invariants 1 and 4): a first block exists, both pointer lists are
densely packed from index 0, an indirect block exists only when all
direct pointers are in use, and no block appears twice on the chain. -/
def NodeWF (fs : SFileSystem) (disk : Disk) (inn : Nat) : Prop :=
  (fs.i_node inn).pointer 0 ≠ 0 ∧
  (∀ j, j < NUMBER_OF_POINTERS → (fs.i_node inn).pointer j ≠ 0 →
    ∀ i, i ≤ j → (fs.i_node inn).pointer i ≠ 0) ∧
  ((fs.i_node inn).ind_pointer ≠ 0 →
    (∀ i, i < NUMBER_OF_POINTERS → (fs.i_node inn).pointer i ≠ 0) ∧
    (∀ j, j < POINTERS_IND_BLOCK → disk.ind (fs.i_node inn).ind_pointer j ≠ 0 →
      ∀ i, i ≤ j → disk.ind (fs.i_node inn).ind_pointer i ≠ 0)) ∧
  (fileChain fs disk inn).Nodup

/-- Every chain block is marked allocated in the free bitmap (spec §3.3,
invariant 2). -/
def ChainAllocated (fs : SFileSystem) (disk : Disk) (inn : Nat) : Prop :=
  ∀ b ∈ fileChain fs disk inn, fs.free_bit_map b = false

theorem takeUntilZero_length_le (f : Nat → Nat) :
    ∀ (n start : Nat), (takeUntilZero f start n).length ≤ n := by
  intro n
  induction n with
  | zero => intro start; simp [takeUntilZero]
  | succ n ih =>
    intro start
    simp only [takeUntilZero]
    by_cases h : f start = 0
    · simp [h]
    · rw [if_neg h]
      simpa using ih (start + 1)

theorem takeUntilZero_getD (f : Nat → Nat) :
    ∀ (n start k : Nat), k < (takeUntilZero f start n).length →
      (takeUntilZero f start n).getD k 0 = f (start + k) ∧ f (start + k) ≠ 0 := by
  intro n
  induction n with
  | zero => intro start k hk; simp [takeUntilZero] at hk
  | succ n ih =>
    intro start k hk
    simp only [takeUntilZero] at hk ⊢
    by_cases h : f start = 0
    · rw [if_pos h] at hk; simp at hk
    · rw [if_neg h] at hk ⊢
      cases k with
      | zero => simpa using h
      | succ k =>
        simp only [List.getD_cons_succ]
        simp only [List.length_cons, Nat.succ_lt_succ_iff] at hk
        have := ih (start + 1) k hk
        rwa [show start + 1 + k = start + (k + 1) by omega] at this

theorem takeUntilZero_stop (f : Nat → Nat) :
    ∀ (n start : Nat), (takeUntilZero f start n).length < n →
      f (start + (takeUntilZero f start n).length) = 0 := by
  intro n
  induction n with
  | zero => intro start h; omega
  | succ n ih =>
    intro start h
    simp only [takeUntilZero] at h ⊢
    by_cases hf : f start = 0
    · rw [if_pos hf]; simpa using hf
    · rw [if_neg hf] at h ⊢
      simp only [List.length_cons, Nat.succ_lt_succ_iff] at h
      have := ih (start + 1) h
      simp only [List.length_cons]
      rwa [show start + ((takeUntilZero f (start + 1) n).length + 1)
        = start + 1 + (takeUntilZero f (start + 1) n).length by omega]

theorem takeUntilZero_full (f : Nat → Nat) :
    ∀ (n start : Nat), (∀ k, k < n → f (start + k) ≠ 0) →
      (takeUntilZero f start n).length = n := by
  intro n
  induction n with
  | zero => intro start _; simp [takeUntilZero]
  | succ n ih =>
    intro start h
    simp only [takeUntilZero]
    rw [if_neg (by simpa using h 0 (by omega))]
    simp only [List.length_cons]
    rw [ih (start + 1) (fun k hk => by
      have := h (k + 1) (by omega)
      rwa [show start + (k + 1) = start + 1 + k by omega] at this)]

/-- A wf node's direct pointers read back through the chain: for
`i < 14`, `pointer i` is the `i`-th chain entry (0 when absent). -/
theorem chain_pointer_eq (fs : SFileSystem) (disk : Disk) (inn : Nat)
    (wf : NodeWF fs disk inn) :
    ∀ i, i < NUMBER_OF_POINTERS →
      (fs.i_node inn).pointer i = (fileChain fs disk inn).getD i 0 := by
  intro i hi
  obtain ⟨h0, hdense, hind, hnodup⟩ := wf
  by_cases hip : (fs.i_node inn).ind_pointer = 0
  · simp only [fileChain, if_pos hip]
    by_cases hk : i < (takeUntilZero (fs.i_node inn).pointer 0 NUMBER_OF_POINTERS).length
    · have := takeUntilZero_getD (fs.i_node inn).pointer NUMBER_OF_POINTERS 0 i hk
      simpa using this.1.symm
    · rw [List.getD_eq_default _ _ (by omega)]
      by_contra hptr
      have hlen : (takeUntilZero (fs.i_node inn).pointer 0 NUMBER_OF_POINTERS).length
          < NUMBER_OF_POINTERS := by omega
      have hstop := takeUntilZero_stop (fs.i_node inn).pointer NUMBER_OF_POINTERS 0 hlen
      have := hdense i hi hptr
        (takeUntilZero (fs.i_node inn).pointer 0 NUMBER_OF_POINTERS).length (by omega)
      simp only [Nat.zero_add] at hstop
      exact this hstop
  · have hfull : (takeUntilZero (fs.i_node inn).pointer 0 NUMBER_OF_POINTERS).length
        = NUMBER_OF_POINTERS :=
      takeUntilZero_full _ _ _ (fun k hk => by simpa using (hind hip).1 k hk)
    simp only [fileChain, if_neg hip]
    rw [List.getD_append _ _ _ _ (by omega)]
    have := takeUntilZero_getD (fs.i_node inn).pointer NUMBER_OF_POINTERS 0 i (by omega)
    simpa using this.1.symm

/-- A wf node's indirect pointers read back through the chain. -/
theorem chain_ind_eq (fs : SFileSystem) (disk : Disk) (inn : Nat)
    (wf : NodeWF fs disk inn) (hip : (fs.i_node inn).ind_pointer ≠ 0) :
    ∀ i, i < POINTERS_IND_BLOCK →
      disk.ind (fs.i_node inn).ind_pointer i
        = (fileChain fs disk inn).getD (NUMBER_OF_POINTERS + i) 0 := by
  intro i hi
  obtain ⟨h0, hdense, hind, hnodup⟩ := wf
  have hfull : (takeUntilZero (fs.i_node inn).pointer 0 NUMBER_OF_POINTERS).length
      = NUMBER_OF_POINTERS :=
    takeUntilZero_full _ _ _ (fun k hk => by simpa using (hind hip).1 k hk)
  simp only [fileChain, if_neg hip]
  rw [List.getD_append_right _ _ _ _ (by omega), hfull]
  rw [show NUMBER_OF_POINTERS + i - NUMBER_OF_POINTERS = i by omega]
  set g := disk.ind (fs.i_node inn).ind_pointer with hg
  by_cases hk : i < (takeUntilZero g 0 POINTERS_IND_BLOCK).length
  · have := takeUntilZero_getD g POINTERS_IND_BLOCK 0 i hk
    simpa using this.1.symm
  · rw [List.getD_eq_default _ _ (by omega)]
    by_contra hptr
    have hlen : (takeUntilZero g 0 POINTERS_IND_BLOCK).length < POINTERS_IND_BLOCK := by
      omega
    have hstop := takeUntilZero_stop g POINTERS_IND_BLOCK 0 hlen
    have := (hind hip).2 i hi hptr (takeUntilZero g 0 POINTERS_IND_BLOCK).length (by omega)
    simp only [Nat.zero_add] at hstop
    exact this hstop

/-- Chain length bounds. -/
theorem chain_length_le (fs : SFileSystem) (disk : Disk) (inn : Nat) :
    (fileChain fs disk inn).length ≤ NUMBER_OF_POINTERS + POINTERS_IND_BLOCK := by
  simp only [fileChain]
  by_cases hip : (fs.i_node inn).ind_pointer = 0
  · rw [if_pos hip]
    have := takeUntilZero_length_le (fs.i_node inn).pointer NUMBER_OF_POINTERS 0
    omega
  · rw [if_neg hip, List.length_append]
    have h1 := takeUntilZero_length_le (fs.i_node inn).pointer NUMBER_OF_POINTERS 0
    have h2 := takeUntilZero_length_le
      (disk.ind (fs.i_node inn).ind_pointer) POINTERS_IND_BLOCK 0
    omega

theorem chain_length_no_ind (fs : SFileSystem) (disk : Disk) (inn : Nat)
    (hip : (fs.i_node inn).ind_pointer = 0) :
    (fileChain fs disk inn).length ≤ NUMBER_OF_POINTERS := by
  simp only [fileChain, if_pos hip]
  exact takeUntilZero_length_le _ _ _

theorem chain_length_ind (fs : SFileSystem) (disk : Disk) (inn : Nat)
    (wf : NodeWF fs disk inn) (hip : (fs.i_node inn).ind_pointer ≠ 0) :
    NUMBER_OF_POINTERS ≤ (fileChain fs disk inn).length := by
  have hfull : (takeUntilZero (fs.i_node inn).pointer 0 NUMBER_OF_POINTERS).length
      = NUMBER_OF_POINTERS :=
    takeUntilZero_full _ _ _ (fun k hk => by simpa using (wf.2.2.1 hip).1 k hk)
  simp only [fileChain, if_neg hip, List.length_append]
  omega

theorem chain_length_pos (fs : SFileSystem) (disk : Disk) (inn : Nat)
    (wf : NodeWF fs disk inn) : 0 < (fileChain fs disk inn).length := by
  have := chain_pointer_eq fs disk inn wf 0 (by decide)
  by_contra h
  push_neg at h
  rw [List.getD_eq_default _ _ (by omega)] at this
  exact wf.1 this

/-- Chain entries are nonzero; entries past the end read as 0. -/
theorem chain_ne_zero (fs : SFileSystem) (disk : Disk) (inn : Nat)
    (k : Nat) (hk : k < (fileChain fs disk inn).length) :
    (fileChain fs disk inn).getD k 0 ≠ 0 := by
  simp only [fileChain] at hk ⊢
  by_cases hip : (fs.i_node inn).ind_pointer = 0
  · rw [if_pos hip] at hk ⊢
    exact (takeUntilZero_getD _ _ _ _ hk).1 ▸ (takeUntilZero_getD _ _ _ _ hk).2
  · rw [if_neg hip] at hk ⊢
    rw [List.length_append] at hk
    by_cases hkd : k < (takeUntilZero (fs.i_node inn).pointer 0 NUMBER_OF_POINTERS).length
    · rw [List.getD_append _ _ _ _ hkd]
      exact (takeUntilZero_getD _ _ _ _ hkd).1 ▸ (takeUntilZero_getD _ _ _ _ hkd).2
    · rw [List.getD_append_right _ _ _ _ (by omega)]
      have hk2 : k - (takeUntilZero (fs.i_node inn).pointer 0 NUMBER_OF_POINTERS).length
          < (takeUntilZero (disk.ind (fs.i_node inn).ind_pointer) 0
              POINTERS_IND_BLOCK).length := by omega
      exact (takeUntilZero_getD _ _ _ _ hk2).1 ▸ (takeUntilZero_getD _ _ _ _ hk2).2

/-! ## The walker loops against the chain -/

theorem foldl_keep_last (init : Int) (l : List Nat) :
    l.foldl (fun _ x => Int.ofNat x) init =
      if l.length = 0 then init else Int.ofNat (l.getD (l.length - 1) 0) := by
  induction l generalizing init with
  | nil => simp
  | cons x xs ih =>
    simp only [List.foldl_cons, ih, List.length_cons]
    by_cases hxs : xs.length = 0
    · have hnil : xs = [] := List.length_eq_zero.mp hxs
      subst hnil
      simp
    · rw [if_neg hxs, if_neg (by omega)]
      obtain ⟨m, hm⟩ := Nat.exists_eq_succ_of_ne_zero hxs
      rw [hm]
      simp only [Nat.add_sub_cancel, List.getD_cons_succ]
      rw [show m + 1 - 1 = m by omega]

/-- `get_last_file_block` returns the last chain entry of a wf node. -/
theorem get_last_chain (fs : SFileSystem) (disk : Disk) (inn : Nat)
    (wf : NodeWF fs disk inn) :
    get_last_file_block fs disk inn =
      Int.ofNat ((fileChain fs disk inn).getD ((fileChain fs disk inn).length - 1) 0) := by
  have hdpos : 0 < (takeUntilZero (fs.i_node inn).pointer 0 NUMBER_OF_POINTERS).length := by
    rcases Nat.eq_zero_or_pos
      (takeUntilZero (fs.i_node inn).pointer 0 NUMBER_OF_POINTERS).length with h | h
    · exfalso
      have hstop := takeUntilZero_stop (fs.i_node inn).pointer NUMBER_OF_POINTERS 0
        (by have h14 := NP_eq; omega)
      rw [h] at hstop
      simp only [Nat.add_zero] at hstop
      exact wf.1 hstop
    · exact h
  have hdne : ¬ ((takeUntilZero (fs.i_node inn).pointer 0 NUMBER_OF_POINTERS).length = 0) := by
    omega
  have hdle := takeUntilZero_length_le (fs.i_node inn).pointer NUMBER_OF_POINTERS 0
  by_cases hdlt :
      (takeUntilZero (fs.i_node inn).pointer 0 NUMBER_OF_POINTERS).length
        < NUMBER_OF_POINTERS
  · have hip : (fs.i_node inn).ind_pointer = 0 := by
      by_contra hip
      have hfull := takeUntilZero_full (fs.i_node inn).pointer NUMBER_OF_POINTERS 0
        (fun k hk => by simpa using (wf.2.2.1 hip).1 k hk)
      omega
    simp only [get_last_file_block, scanLast_spec, fileChain, if_pos hip, hdlt,
      decide_True, if_true, foldl_keep_last, if_neg hdne]
  · by_cases hip : (fs.i_node inn).ind_pointer = 0
    · simp only [get_last_file_block, scanLast_spec, fileChain, if_pos hip, hdlt,
        decide_False, Bool.false_eq_true, if_false, foldl_keep_last, if_neg hdne]
    · simp only [get_last_file_block, scanLast_spec, fileChain, if_neg hip, hdlt,
        decide_False, Bool.false_eq_true, if_false, foldl_keep_last, if_neg hdne]
      by_cases htlen :
          (takeUntilZero (disk.ind (fs.i_node inn).ind_pointer) 0
            POINTERS_IND_BLOCK).length = 0
      · rw [if_pos htlen]
        have htnil := List.length_eq_zero.mp htlen
        rw [htnil, List.append_nil]
      · rw [if_neg htlen, List.length_append,
          List.getD_append_right _ _ _ _ (by omega)]
        congr 2
        omega


/-- Bounds for `get_end_char` on a nonnegative size. -/
theorem get_end_char_bounds (fs : SFileSystem) (disk : Disk) (inn : Nat)
    (hsz : 0 ≤ (fs.i_node inn).size) :
    0 ≤ get_end_char fs disk inn ∧
      get_end_char fs disk inn ≤ Int.ofNat NUMBER_OF_BYTES_BLOCK := by
  unfold get_end_char get_file_size
  have h1 : 0 ≤ Int.tmod (fs.i_node inn).size (Int.ofNat NUMBER_OF_BYTES_BLOCK) :=
    Int.tmod_nonneg _ hsz
  have h2 : Int.tmod (fs.i_node inn).size (Int.ofNat NUMBER_OF_BYTES_BLOCK)
      < Int.ofNat NUMBER_OF_BYTES_BLOCK :=
    Int.tmod_lt_of_pos _ (by decide)
  by_cases he : Int.tmod (fs.i_node inn).size (Int.ofNat NUMBER_OF_BYTES_BLOCK) = 0
  · rw [if_pos he]
    by_cases hs : (fs.i_node inn).size
        = Int.ofNat (get_num_file_blocks fs disk inn * NUMBER_OF_BYTES_BLOCK)
    · rw [if_pos hs]; exact ⟨by decide, le_refl _⟩
    · rw [if_neg hs]; exact ⟨le_refl _, by decide⟩
  · rw [if_neg he]
    exact ⟨h1, le_of_lt h2⟩


/-! ## C6 -/

/-- Chain entries determine their index (no duplicate blocks). -/
theorem chain_getD_inj (fs : SFileSystem) (disk : Disk) (inn : Nat)
    (wf : NodeWF fs disk inn) (i j : Nat)
    (hi : i < (fileChain fs disk inn).length) (hj : j < (fileChain fs disk inn).length)
    (h : (fileChain fs disk inn).getD i 0 = (fileChain fs disk inn).getD j 0) : i = j := by
  rw [List.getD_eq_getElem _ _ hi, List.getD_eq_getElem _ _ hj] at h
  exact (List.Nodup.getElem_inj_iff wf.2.2.2).mp h

/-- `seek_block` against the chain: the block holding byte `loc` when it
exists, `-1` otherwise. -/
theorem seek_block_chain (st : St) (fid : Nat) (loc : Int) (inn : Nat)
    (hinn : (st.oft fid).entry.i_node_number = inn)
    (wf : NodeWF st.fs st.disk inn)
    (h0 : 0 ≤ loc)
    (hloc : loc < Int.ofNat ((NUMBER_OF_POINTERS + POINTERS_IND_BLOCK)
      * NUMBER_OF_BYTES_BLOCK)) :
    seek_block st fid loc =
      if (loc.tdiv (Int.ofNat NUMBER_OF_BYTES_BLOCK)).toNat
          < (fileChain st.fs st.disk inn).length
      then Int.ofNat ((fileChain st.fs st.disk inn).getD
        ((loc.tdiv (Int.ofNat NUMBER_OF_BYTES_BLOCK)).toNat) 0)
      else -1 := by
  have hchain_le := chain_length_le st.fs st.disk inn
  have hq0 : 0 ≤ loc.tdiv (Int.ofNat NUMBER_OF_BYTES_BLOCK) :=
    Int.tdiv_nonneg h0 (by decide)
  have hqediv : loc.tdiv (Int.ofNat NUMBER_OF_BYTES_BLOCK)
      = loc / (Int.ofNat NUMBER_OF_BYTES_BLOCK) := Int.tdiv_eq_ediv h0 (by decide)
  have hkb : (loc.tdiv (Int.ofNat NUMBER_OF_BYTES_BLOCK)).toNat
      < NUMBER_OF_POINTERS + POINTERS_IND_BLOCK := by
    have h14 := NP_eq; have h256 := PIB_eq; have h1024 := BS_eq
    rw [hqediv]
    have : loc < (270 : Int) * 1024 := by
      have : Int.ofNat ((NUMBER_OF_POINTERS + POINTERS_IND_BLOCK)
        * NUMBER_OF_BYTES_BLOCK) = (270 : Int) * 1024 := by decide
      omega
    show (loc / (Int.ofNat NUMBER_OF_BYTES_BLOCK)).toNat < _
    have hBS : Int.ofNat NUMBER_OF_BYTES_BLOCK = (1024 : Int) := by decide
    rw [hBS]
    omega
  set k := (loc.tdiv (Int.ofNat NUMBER_OF_BYTES_BLOCK)).toNat with hk
  unfold seek_block
  rw [if_neg (by omega), hinn]
  show (if k < NUMBER_OF_POINTERS then _ else _) = _
  by_cases hk14 : k < NUMBER_OF_POINTERS
  · rw [if_pos hk14]
    rw [chain_pointer_eq st.fs st.disk inn wf k hk14]
    by_cases hkl : k < (fileChain st.fs st.disk inn).length
    · rw [if_pos hkl, if_pos (chain_ne_zero st.fs st.disk inn k hkl)]
    · rw [if_neg hkl, if_neg (by
        push_neg
        exact List.getD_eq_default _ _ (by omega))]
  · rw [if_neg hk14]
    by_cases hip : (st.fs.i_node inn).ind_pointer = 0
    · rw [if_pos hip, if_neg (by
        have := chain_length_no_ind st.fs st.disk inn hip
        omega)]
    · rw [if_neg hip]
      have hk256 : k - NUMBER_OF_POINTERS < POINTERS_IND_BLOCK := by omega
      rw [chain_ind_eq st.fs st.disk inn wf hip (k - NUMBER_OF_POINTERS) hk256]
      rw [show NUMBER_OF_POINTERS + (k - NUMBER_OF_POINTERS) = k by omega]
      by_cases hkl : k < (fileChain st.fs st.disk inn).length
      · rw [if_pos hkl, if_pos (chain_ne_zero st.fs st.disk inn k hkl)]
      · rw [if_neg hkl, if_neg (by
          push_neg
          exact List.getD_eq_default _ _ (by omega))]


/-- C6's invalidity condition, stated from the spec's words: negative
offset, the block containing `loc` does not exist on the inode's pointer
chain, or the offset falls on the last block and exceeds `end_byte`. -/
def SeekInvalid (st : St) (loc : Int) (inn : Nat) : Prop :=
  loc < 0 ∨
  ¬ ((loc.tdiv (Int.ofNat NUMBER_OF_BYTES_BLOCK)).toNat
      < (fileChain st.fs st.disk inn).length) ∨
  ((loc.tdiv (Int.ofNat NUMBER_OF_BYTES_BLOCK)).toNat
      = (fileChain st.fs st.disk inn).length - 1 ∧
    get_end_char st.fs st.disk inn < loc.tmod (Int.ofNat NUMBER_OF_BYTES_BLOCK))

theorem seek_char_chain (st : St) (fid : Nat) (loc : Int) (inn : Nat)
    (hinn : (st.oft fid).entry.i_node_number = inn)
    (wf : NodeWF st.fs st.disk inn)
    (h0 : 0 ≤ loc)
    (hloc : loc < Int.ofNat ((NUMBER_OF_POINTERS + POINTERS_IND_BLOCK)
      * NUMBER_OF_BYTES_BLOCK)) :
    seek_char st fid loc =
      if (loc.tdiv (Int.ofNat NUMBER_OF_BYTES_BLOCK)).toNat
            < (fileChain st.fs st.disk inn).length ∧
          (loc.tdiv (Int.ofNat NUMBER_OF_BYTES_BLOCK)).toNat
            = (fileChain st.fs st.disk inn).length - 1 then
        (if loc.tmod (Int.ofNat NUMBER_OF_BYTES_BLOCK) ≤ get_end_char st.fs st.disk inn
         then loc.tmod (Int.ofNat NUMBER_OF_BYTES_BLOCK) else -1)
      else loc.tmod (Int.ofNat NUMBER_OF_BYTES_BLOCK) := by
  have hsb := seek_block_chain st fid loc inn hinn wf h0 hloc
  have hlast := get_last_chain st.fs st.disk inn wf
  have hlen0 := chain_length_pos st.fs st.disk inn wf
  unfold seek_char
  simp only [if_neg (show ¬ loc < 0 by omega), hinn, hsb, hlast]
  by_cases hkl : (loc.tdiv (Int.ofNat NUMBER_OF_BYTES_BLOCK)).toNat
      < (fileChain st.fs st.disk inn).length
  · rw [if_pos hkl]
    by_cases hk1 : (loc.tdiv (Int.ofNat NUMBER_OF_BYTES_BLOCK)).toNat
        = (fileChain st.fs st.disk inn).length - 1
    · have hble : Int.ofNat ((fileChain st.fs st.disk inn).getD
            ((loc.tdiv (Int.ofNat NUMBER_OF_BYTES_BLOCK)).toNat) 0)
          = Int.ofNat ((fileChain st.fs st.disk inn).getD
            ((fileChain st.fs st.disk inn).length - 1) 0) := by rw [hk1]
      rw [if_pos hble, if_pos (And.intro hkl hk1)]
    · have hbne : ¬ (Int.ofNat ((fileChain st.fs st.disk inn).getD
            ((loc.tdiv (Int.ofNat NUMBER_OF_BYTES_BLOCK)).toNat) 0)
          = Int.ofNat ((fileChain st.fs st.disk inn).getD
            ((fileChain st.fs st.disk inn).length - 1) 0)) := by
        intro hc
        have hgd : ((fileChain st.fs st.disk inn).getD
            ((loc.tdiv (Int.ofNat NUMBER_OF_BYTES_BLOCK)).toNat) 0)
          = ((fileChain st.fs st.disk inn).getD
            ((fileChain st.fs st.disk inn).length - 1) 0) := by
          have := congrArg Int.toNat hc
          simpa using this
        exact hk1 (chain_getD_inj st.fs st.disk inn wf _ _ hkl (by omega) hgd)
      have hcne : ¬ ((loc.tdiv (Int.ofNat NUMBER_OF_BYTES_BLOCK)).toNat
            < (fileChain st.fs st.disk inn).length ∧
          (loc.tdiv (Int.ofNat NUMBER_OF_BYTES_BLOCK)).toNat
            = (fileChain st.fs st.disk inn).length - 1) := fun hc => hk1 hc.2
      rw [if_neg hbne, if_neg hcne]
  · have hbne : ¬ ((-1 : Int) = Int.ofNat ((fileChain st.fs st.disk inn).getD
        ((fileChain st.fs st.disk inn).length - 1) 0)) := by
      rw [Int.ofNat_eq_natCast]; omega
    have hcne : ¬ ((loc.tdiv (Int.ofNat NUMBER_OF_BYTES_BLOCK)).toNat
          < (fileChain st.fs st.disk inn).length ∧
        (loc.tdiv (Int.ofNat NUMBER_OF_BYTES_BLOCK)).toNat
          = (fileChain st.fs st.disk inn).length - 1) := fun hc => hkl hc.1
    rw [if_neg hkl, if_neg hbne, if_neg hcne]

/-- The successor state of a successful `frseek`: only the read cursor
of `fid` changes. -/
def withReadPtr (st : St) (fid : Nat) (p : SFilePointer) : St :=
  { st with oft := upd st.oft fid ({ st.oft fid with read_pointer := p }) }

/-- The successor state of a successful `fwseek`: only the write cursor
of `fid` changes. -/
def withWritePtr (st : St) (fid : Nat) (p : SFilePointer) : St :=
  { st with oft := upd st.oft fid ({ st.oft fid with write_pointer := p }) }

/-- C6.  For every open file descriptor, `frseek(fd, loc)` and
`fwseek(fd, loc)` return `-1` exactly when `loc < 0`, or the block
containing byte offset `loc` does not exist in the inode's pointer
chain, or the offset falls on the last block and exceeds `end_byte`; on
failure the state (hence the cursor) is unchanged, and on success the
only change is the respective cursor, moved to that block and offset —
no block is allocated and no file metadata changes.  (`loc` is bounded
by the maximal chain capacity; beyond it the C source indexes the
indirect-pointer array out of bounds, which is undefined.) -/
theorem claim6_seek_validity (st : St) (fid : Nat) (loc : Int) (inn : Nat)
    (hinn : (st.oft fid).entry.i_node_number = inn)
    (wf : NodeWF st.fs st.disk inn)
    (hloc : loc < Int.ofNat ((NUMBER_OF_POINTERS + POINTERS_IND_BLOCK)
      * NUMBER_OF_BYTES_BLOCK)) :
    ((ssfs_frseek st fid loc).1 = -1 ↔ SeekInvalid st loc inn) ∧
    ((ssfs_fwseek st fid loc).1 = -1 ↔ SeekInvalid st loc inn) ∧
    (SeekInvalid st loc inn →
      (ssfs_frseek st fid loc).2 = st ∧ (ssfs_fwseek st fid loc).2 = st) ∧
    (¬ SeekInvalid st loc inn →
      (ssfs_frseek st fid loc).2 = withReadPtr st fid
          ⟨(fileChain st.fs st.disk inn).getD
              ((loc.tdiv (Int.ofNat NUMBER_OF_BYTES_BLOCK)).toNat) 0,
            (loc.tmod (Int.ofNat NUMBER_OF_BYTES_BLOCK)).toNat⟩ ∧
      (ssfs_fwseek st fid loc).2 = withWritePtr st fid
          ⟨(fileChain st.fs st.disk inn).getD
              ((loc.tdiv (Int.ofNat NUMBER_OF_BYTES_BLOCK)).toNat) 0,
            (loc.tmod (Int.ofNat NUMBER_OF_BYTES_BLOCK)).toNat⟩) := by
  by_cases hneg : loc < 0
  · have hsb : seek_block st fid loc = -1 := by
      unfold seek_block; rw [if_pos hneg]
    have hsc : seek_char st fid loc = -1 := by
      unfold seek_char; rw [if_pos hneg]
    have hinv : SeekInvalid st loc inn := Or.inl hneg
    have hfr : ssfs_frseek st fid loc = (-1, st) := by
      unfold ssfs_frseek; rw [hsb, hsc, if_pos (Or.inl (by decide))]
    have hfw : ssfs_fwseek st fid loc = (-1, st) := by
      unfold ssfs_fwseek; rw [hsb, hsc, if_pos (Or.inl (by decide))]
    refine ⟨iff_of_true (by rw [hfr]) hinv, iff_of_true (by rw [hfw]) hinv,
      fun _ => ⟨by rw [hfr], by rw [hfw]⟩, fun hni => absurd hinv hni⟩
  · have h0 : 0 ≤ loc := not_lt.mp hneg
    have hsb := seek_block_chain st fid loc inn hinn wf h0 hloc
    have hsc := seek_char_chain st fid loc inn hinn wf h0 hloc
    have hr0 : 0 ≤ loc.tmod (Int.ofNat NUMBER_OF_BYTES_BLOCK) := Int.tmod_nonneg _ h0
    have hlen0 := chain_length_pos st.fs st.disk inn wf
    by_cases hkl : (loc.tdiv (Int.ofNat NUMBER_OF_BYTES_BLOCK)).toNat
        < (fileChain st.fs st.disk inn).length
    · rw [if_pos hkl] at hsb
      by_cases hk1 : (loc.tdiv (Int.ofNat NUMBER_OF_BYTES_BLOCK)).toNat
          = (fileChain st.fs st.disk inn).length - 1
      · rw [if_pos ⟨hkl, hk1⟩] at hsc
        by_cases hrc : loc.tmod (Int.ofNat NUMBER_OF_BYTES_BLOCK)
            ≤ get_end_char st.fs st.disk inn
        · rw [if_pos hrc] at hsc
          have hni : ¬ SeekInvalid st loc inn := by
            intro h
            rcases h with h | h | h
            · omega
            · exact h hkl
            · omega
          have hfr : ssfs_frseek st fid loc = (0, withReadPtr st fid
              ⟨(fileChain st.fs st.disk inn).getD
                  ((loc.tdiv (Int.ofNat NUMBER_OF_BYTES_BLOCK)).toNat) 0,
                (loc.tmod (Int.ofNat NUMBER_OF_BYTES_BLOCK)).toNat⟩) := by
            unfold ssfs_frseek
            rw [hsb, hsc, if_neg (by
              push_neg
              refine ⟨?_, ?_⟩
              · rw [Int.ofNat_eq_natCast]; omega
              · omega)]
            simp [withReadPtr]
          have hfw : ssfs_fwseek st fid loc = (0, withWritePtr st fid
              ⟨(fileChain st.fs st.disk inn).getD
                  ((loc.tdiv (Int.ofNat NUMBER_OF_BYTES_BLOCK)).toNat) 0,
                (loc.tmod (Int.ofNat NUMBER_OF_BYTES_BLOCK)).toNat⟩) := by
            unfold ssfs_fwseek
            rw [hsb, hsc, if_neg (by
              push_neg
              refine ⟨?_, ?_⟩
              · rw [Int.ofNat_eq_natCast]; omega
              · omega)]
            simp [withWritePtr]
          exact ⟨iff_of_false (by rw [hfr]; simp) hni,
            iff_of_false (by rw [hfw]; simp) hni,
            fun h => absurd h hni,
            fun _ => ⟨by rw [hfr], by rw [hfw]⟩⟩
        · rw [if_neg hrc] at hsc
          have hinv : SeekInvalid st loc inn := Or.inr (Or.inr ⟨hk1, by omega⟩)
          have hfr : ssfs_frseek st fid loc = (-1, st) := by
            unfold ssfs_frseek; rw [hsb, hsc, if_pos (Or.inr (by decide))]
          have hfw : ssfs_fwseek st fid loc = (-1, st) := by
            unfold ssfs_fwseek; rw [hsb, hsc, if_pos (Or.inr (by decide))]
          exact ⟨iff_of_true (by rw [hfr]) hinv, iff_of_true (by rw [hfw]) hinv,
            fun _ => ⟨by rw [hfr], by rw [hfw]⟩, fun hni => absurd hinv hni⟩
      · rw [if_neg (fun hc => hk1 hc.2)] at hsc
        have hni : ¬ SeekInvalid st loc inn := by
          intro h
          rcases h with h | h | h
          · omega
          · exact h hkl
          · exact hk1 h.1
        have hfr : ssfs_frseek st fid loc = (0, withReadPtr st fid
            ⟨(fileChain st.fs st.disk inn).getD
                ((loc.tdiv (Int.ofNat NUMBER_OF_BYTES_BLOCK)).toNat) 0,
              (loc.tmod (Int.ofNat NUMBER_OF_BYTES_BLOCK)).toNat⟩) := by
          unfold ssfs_frseek
          rw [hsb, hsc, if_neg (by
              push_neg
              refine ⟨?_, ?_⟩
              · rw [Int.ofNat_eq_natCast]; omega
              · omega)]
          simp [withReadPtr]
        have hfw : ssfs_fwseek st fid loc = (0, withWritePtr st fid
            ⟨(fileChain st.fs st.disk inn).getD
                ((loc.tdiv (Int.ofNat NUMBER_OF_BYTES_BLOCK)).toNat) 0,
              (loc.tmod (Int.ofNat NUMBER_OF_BYTES_BLOCK)).toNat⟩) := by
          unfold ssfs_fwseek
          rw [hsb, hsc, if_neg (by
              push_neg
              refine ⟨?_, ?_⟩
              · rw [Int.ofNat_eq_natCast]; omega
              · omega)]
          simp [withWritePtr]
        exact ⟨iff_of_false (by rw [hfr]; simp) hni,
          iff_of_false (by rw [hfw]; simp) hni,
          fun h => absurd h hni,
          fun _ => ⟨by rw [hfr], by rw [hfw]⟩⟩
    · rw [if_neg hkl] at hsb
      rw [if_neg (fun hc => hkl hc.1)] at hsc
      have hinv : SeekInvalid st loc inn := Or.inr (Or.inl hkl)
      have hfr : ssfs_frseek st fid loc = (-1, st) := by
        unfold ssfs_frseek; rw [hsb, hsc, if_pos (Or.inl (by decide))]
      have hfw : ssfs_fwseek st fid loc = (-1, st) := by
        unfold ssfs_fwseek; rw [hsb, hsc, if_pos (Or.inl (by decide))]
      exact ⟨iff_of_true (by rw [hfr]) hinv, iff_of_true (by rw [hfw]) hinv,
        fun _ => ⟨by rw [hfr], by rw [hfw]⟩, fun hni => absurd hinv hni⟩

/-- C6 witness: on `oneFileSt` (one file of size 5 in one block), a seek
to offset 6 is past `end_byte` on the last block, and `frseek` fails;
a seek to offset 3 is valid, `frseek` succeeds and moves only the read
cursor. -/
theorem claim6_seek_validity_witness :
    SeekInvalid oneFileSt 6 5 ∧ (ssfs_frseek oneFileSt 0 6).1 = -1 ∧
    ¬ SeekInvalid oneFileSt 3 5 ∧ (ssfs_frseek oneFileSt 0 3).1 ≠ -1 := by
  have h6 := claim6_seek_validity oneFileSt 0 6 5 (by decide) (by unfold NodeWF; decide) (by decide)
  have h3 := claim6_seek_validity oneFileSt 0 3 5 (by decide) (by unfold NodeWF; decide) (by decide)
  have hinv : SeekInvalid oneFileSt 6 5 := by
    right; right; exact ⟨by decide, by decide⟩
  have hval : ¬ SeekInvalid oneFileSt 3 5 := by
    intro hc
    rcases hc with hc | hc | hc
    · exact absurd hc (by decide)
    · exact hc (by decide)
    · exact absurd hc.2 (by decide)
  exact ⟨hinv, h6.1.mpr hinv, hval, fun hc => hval (h3.1.mp hc)⟩

/-! ## Walker: successor block -/

theorem findIdx?_eq_some {p : Nat → Bool} {start n i : Nat}
    (h1 : start ≤ i) (h2 : i < start + n) (h3 : p i = true)
    (h4 : ∀ j, start ≤ j → j < i → p j = false) :
    findIdx? p start n = some i := by
  cases hfind : findIdx? p start n with
  | none =>
    have := findIdx?_none.mp hfind i h1 h2
    rw [h3] at this; cases this
  | some k =>
    obtain ⟨k1, k2, k3, k4⟩ := findIdx?_some hfind
    by_cases hik : k = i
    · rw [hik]
    · rcases Nat.lt_or_ge k i with hlt | hge
      · have := h4 k k1 hlt; rw [k3] at this; cases this
      · have := k4 i h1 (by omega); rw [h3] at this; cases this

theorem chain_getD_zero_iff (fs : SFileSystem) (disk : Disk) (inn k : Nat) :
    ((fileChain fs disk inn).getD k 0 = 0) ↔
      ¬ (k < (fileChain fs disk inn).length) := by
  constructor
  · intro h hk
    exact chain_ne_zero fs disk inn k hk h
  · intro hk
    exact List.getD_eq_default _ _ (by omega)

/-- `get_next_file_block` against the chain: the entry after position
`p`, or `-1` when `p` is last. -/
theorem get_next_chain (fs : SFileSystem) (disk : Disk) (inn : Nat) (cb : Nat)
    (wf : NodeWF fs disk inn) (p : Nat)
    (hp : p < (fileChain fs disk inn).length)
    (hcb : (fileChain fs disk inn).getD p 0 = cb) :
    get_next_file_block fs disk inn cb =
      if p + 1 < (fileChain fs disk inn).length
      then Int.ofNat ((fileChain fs disk inn).getD (p + 1) 0) else -1 := by
  have h14 := NP_eq
  have h256 := PIB_eq
  have hle := chain_length_le fs disk inn
  unfold get_next_file_block
  by_cases hp14 : p < NUMBER_OF_POINTERS
  · have hfind : findIdx? (fun i => (fs.i_node inn).pointer i == cb)
        0 NUMBER_OF_POINTERS = some p := by
      apply findIdx?_eq_some (Nat.zero_le _) (by omega)
      · rw [chain_pointer_eq fs disk inn wf p hp14, hcb]
        simp
      · intro j _ hj
        rw [chain_pointer_eq fs disk inn wf j (by omega), ← hcb]
        simp only [beq_eq_false_iff_ne, ne_eq]
        intro hc
        have := chain_getD_inj fs disk inn wf j p (by omega) hp hc
        omega
    simp only [hfind]
    by_cases hp1 : p + 1 < NUMBER_OF_POINTERS
    · rw [if_pos hp1, chain_pointer_eq fs disk inn wf (p + 1) hp1]
      by_cases hz : (fileChain fs disk inn).getD (p + 1) 0 = 0
      · rw [if_neg (by simpa using hz), if_neg ((chain_getD_zero_iff fs disk inn (p + 1)).mp hz)]
      · rw [if_pos (by simpa using hz),
          if_pos (by by_contra hc; exact hz (List.getD_eq_default _ _ (by omega)))]
    · rw [if_neg hp1]
      have hp14e : p + 1 = NUMBER_OF_POINTERS := by omega
      by_cases hip : (fs.i_node inn).ind_pointer = 0
      · rw [if_pos hip, if_neg (by
          have := chain_length_no_ind fs disk inn hip
          omega)]
      · rw [if_neg hip]
        have hind0 := chain_ind_eq fs disk inn wf hip 0 (by omega)
        rw [show NUMBER_OF_POINTERS + 0 = p + 1 by omega] at hind0
        rw [hind0]
        by_cases hz : (fileChain fs disk inn).getD (p + 1) 0 = 0
        · rw [if_neg (by simpa using hz),
            if_neg ((chain_getD_zero_iff fs disk inn (p + 1)).mp hz)]
        · rw [if_pos (by simpa using hz),
            if_pos (by by_contra hc; exact hz (List.getD_eq_default _ _ (by omega)))]
  · have hip : (fs.i_node inn).ind_pointer ≠ 0 := by
      intro hip
      have := chain_length_no_ind fs disk inn hip
      omega
    have hfind : findIdx? (fun i => (fs.i_node inn).pointer i == cb)
        0 NUMBER_OF_POINTERS = none := by
      rw [findIdx?_none]
      intro j _ hj
      rw [chain_pointer_eq fs disk inn wf j (by omega), ← hcb]
      simp only [beq_eq_false_iff_ne, ne_eq]
      intro hc
      have := chain_getD_inj fs disk inn wf j p (by omega) hp hc
      omega
    simp only [hfind]
    have hfind2 : findIdx? (fun i => disk.ind (fs.i_node inn).ind_pointer i == cb)
        0 POINTERS_IND_BLOCK = some (p - NUMBER_OF_POINTERS) := by
      apply findIdx?_eq_some (Nat.zero_le _) (by omega)
      · rw [chain_ind_eq fs disk inn wf hip (p - NUMBER_OF_POINTERS) (by omega),
          show NUMBER_OF_POINTERS + (p - NUMBER_OF_POINTERS) = p by omega, hcb]
        simp
      · intro j _ hj
        rw [chain_ind_eq fs disk inn wf hip j (by omega), ← hcb]
        simp only [beq_eq_false_iff_ne, ne_eq]
        intro hc
        have := chain_getD_inj fs disk inn wf (NUMBER_OF_POINTERS + j) p
          (by omega) hp hc
        omega
    simp only [hfind2]
    by_cases hp1 : p - NUMBER_OF_POINTERS + 1 < POINTERS_IND_BLOCK
    · rw [if_pos hp1, chain_ind_eq fs disk inn wf hip (p - NUMBER_OF_POINTERS + 1) hp1,
        show NUMBER_OF_POINTERS + (p - NUMBER_OF_POINTERS + 1) = p + 1 by omega]
      by_cases hz : (fileChain fs disk inn).getD (p + 1) 0 = 0
      · rw [if_neg (by simpa using hz),
          if_neg ((chain_getD_zero_iff fs disk inn (p + 1)).mp hz)]
      · rw [if_pos (by simpa using hz),
          if_pos (by by_contra hc; exact hz (List.getD_eq_default _ _ (by omega)))]
    · rw [if_neg hp1, if_neg (by omega)]

/-- The inner loop of `ssfs_fread`: byte count, cursor advance, block
bound, and the last-block stopping discipline. -/
theorem readChars_spec (lb lc : Int) (cb : Nat) (blk : Nat → Nat) :
    ∀ (len cc : Nat),
      (readChars lb lc cb blk len cc).1.length ≤ len ∧
      (readChars lb lc cb blk len cc).2 = cc + (readChars lb lc cb blk len cc).1.length ∧
      (cc ≤ NUMBER_OF_BYTES_BLOCK →
        (readChars lb lc cb blk len cc).2 ≤ NUMBER_OF_BYTES_BLOCK) ∧
      (Int.ofNat cb = lb →
        ∀ k, cc ≤ k → k < (readChars lb lc cb blk len cc).2 → Int.ofNat k < lc) := by
  intro len
  induction len with
  | zero =>
    intro cc
    refine ⟨by simp [readChars], by simp [readChars], fun h => by simpa [readChars] using h,
      fun _ k h1 h2 => ?_⟩
    simp only [readChars] at h2
    omega
  | succ len ih =>
    intro cc
    by_cases hcond : cc < NUMBER_OF_BYTES_BLOCK ∧ ¬(Int.ofNat cb = lb ∧ Int.ofNat cc ≥ lc)
    · have hstep : readChars lb lc cb blk (len + 1) cc
          = ((blk cc) :: (readChars lb lc cb blk len (cc + 1)).1,
             (readChars lb lc cb blk len (cc + 1)).2) := by
        simp only [readChars, if_pos hcond]
      obtain ⟨ih1, ih2, ih3, ih4⟩ := ih (cc + 1)
      rw [hstep]
      refine ⟨by simpa using ih1, by simp [ih2]; omega, fun h => ih3 (by omega), ?_⟩
      intro hcblb k h1 h2
      simp only at h2
      by_cases hk : k = cc
      · subst hk
        rcases not_and_or.mp hcond.2 with hc | hc
        · exact absurd hcblb hc
        · simp only [ge_iff_le, not_le] at hc
          exact hc
      · exact ih4 hcblb k (by omega) h2
    · have hstep : readChars lb lc cb blk (len + 1) cc = ([], cc) := by
        simp only [readChars, if_neg hcond]
      rw [hstep]
      exact ⟨by simp, by simp, fun h => by simpa using h,
        fun _ k h1 h2 => by simp at h1 h2; omega⟩

/-- The `FILL_BLOCK` loop of `ssfs_fread` reads at most the requested
count and never past the end-of-file snapshot. -/
theorem freadGo_bound (fs : SFileSystem) (disk : Disk) (inn : Nat)
    (wf : NodeWF fs disk inn) (lcN : Nat)
    (hlc1 : lcN ≤ NUMBER_OF_BYTES_BLOCK) :
    ∀ (fuel : Nat) (cb cc len p : Nat),
      p < (fileChain fs disk inn).length →
      (fileChain fs disk inn).getD p 0 = cb →
      cc ≤ NUMBER_OF_BYTES_BLOCK →
      (freadGo fs disk inn
          (Int.ofNat ((fileChain fs disk inn).getD ((fileChain fs disk inn).length - 1) 0))
          (Int.ofNat lcN) fuel cb cc len).1.length ≤ len ∧
      p * NUMBER_OF_BYTES_BLOCK + cc
          + (freadGo fs disk inn
              (Int.ofNat ((fileChain fs disk inn).getD ((fileChain fs disk inn).length - 1) 0))
              (Int.ofNat lcN) fuel cb cc len).1.length
        ≤ max (p * NUMBER_OF_BYTES_BLOCK + cc)
            (((fileChain fs disk inn).length - 1) * NUMBER_OF_BYTES_BLOCK + lcN) := by
  rw [BS_eq] at hlc1
  simp only [BS_eq]
  set L := fileChain fs disk inn with hL
  set lb : Int := Int.ofNat (L.getD (L.length - 1) 0) with hlb
  intro fuel
  induction fuel with
  | zero =>
    intro cb cc len p hp hcb hcc
    simp only [freadGo, List.length_nil]
    omega
  | succ fuel ih =>
    intro cb cc len p hp hcb hcc
    have round : ∀ (cb' cc' p' : Nat), p' < L.length → L.getD p' 0 = cb' →
        cc' ≤ 1024 →
        p' * 1024 + cc' = p * 1024 + cc →
        (freadRound lb (Int.ofNat lcN) (freadGo fs disk inn lb (Int.ofNat lcN) fuel)
            disk cb' cc' len).1.length ≤ len ∧
        p * 1024 + cc
            + (freadRound lb (Int.ofNat lcN) (freadGo fs disk inn lb (Int.ofNat lcN) fuel)
                disk cb' cc' len).1.length
          ≤ max (p * 1024 + cc) ((L.length - 1) * 1024 + lcN) := by
      intro cb' cc' p' hp' hcb' hcc' hpos
      obtain ⟨r1, r2, r3, r4⟩ := readChars_spec lb (Int.ofNat lcN) cb' (disk.data cb') len cc'
      rw [BS_eq] at r3
      have hcc2 := r3 hcc'
      simp only [freadRound]
      set m := (readChars lb (Int.ofNat lcN) cb' (disk.data cb') len cc').1.length with hm
      clear_value m
      have hbound : m = 0 ∨ p' * 1024 + cc' + m ≤ (L.length - 1) * 1024 + lcN := by
        by_cases hpl : p' = L.length - 1
        · by_cases hm0 : m = 0
          · exact Or.inl hm0
          · refine Or.inr ?_
            have hlast : Int.ofNat cb' = lb := by
              rw [hlb, ← hcb', hpl]
            have hk := Int.ofNat_lt.mp
              (r4 hlast (cc' + m - 1) (by omega) (by omega))
            have hple : p' * 1024 = (L.length - 1) * 1024 := by rw [hpl]
            omega
        · refine Or.inr ?_
          have hp1 : (p' + 1) * 1024 ≤ (L.length - 1) * 1024 :=
            Nat.mul_le_mul_right _ (by omega)
          have hstep : p' * 1024 + 1024 = (p' + 1) * 1024 := by ring
          omega
      by_cases hcont : 0 < len - m ∧
          ¬(Int.ofNat cb' = lb ∧
            Int.ofNat ((readChars lb (Int.ofNat lcN) cb' (disk.data cb') len cc').2)
              ≥ Int.ofNat lcN)
      · rw [if_pos hcont]
        obtain ⟨g1, g2⟩ := ih cb' ((readChars lb (Int.ofNat lcN) cb' (disk.data cb') len cc').2)
          (len - m) p' hp' hcb' (by omega)
        have hposle : p' * 1024
              + (readChars lb (Int.ofNat lcN) cb' (disk.data cb') len cc').2
            ≤ (L.length - 1) * 1024 + lcN := by
          by_cases hpl : p' = L.length - 1
          · rcases not_and_or.mp hcont.2 with hc | hc
            · exact absurd (by rw [hlb, ← hcb', hpl]) hc
            · have hlt : (readChars lb (Int.ofNat lcN) cb' (disk.data cb') len cc').2 < lcN := by
                by_contra hge
                exact hc (Int.ofNat_le.mpr (by omega))
              have hple : p' * 1024 = (L.length - 1) * 1024 := by rw [hpl]
              omega
          · have hp1 : (p' + 1) * 1024 ≤ (L.length - 1) * 1024 :=
              Nat.mul_le_mul_right _ (by omega)
            have hstep : p' * 1024 + 1024 = (p' + 1) * 1024 := by ring
            omega
        rw [max_eq_right hposle] at g2
        constructor
        · simp only [List.length_append]
          omega
        · simp only [List.length_append]
          refine le_trans ?_ (le_max_right _ _)
          omega
      · rw [if_neg hcont]
        refine ⟨by rw [hm] at r1; simpa using r1, ?_⟩
        rcases hbound with hb | hb
        · refine le_trans ?_ (le_max_left _ _)
          simp only []
          omega
        · refine le_trans ?_ (le_max_right _ _)
          simp only []
          omega
    by_cases hcc1024 : cc ≥ 1024
    · have hnext := get_next_chain fs disk inn cb wf p hp hcb
      simp only [freadGo, BS_eq, if_pos hcc1024, hnext]
      by_cases hp1 : p + 1 < L.length
      · rw [if_pos hp1, if_neg (by rw [Int.ofNat_eq_natCast]; omega)]
        have hcceq : cc = 1024 := by omega
        have hgd := round (L.getD (p + 1) 0) 0 (p + 1) hp1 rfl (by omega)
          (by rw [hcceq]; ring)
        simpa using hgd
      · rw [if_neg hp1, if_pos (by decide)]
        simp only [List.length_nil]
        omega
    · simp only [freadGo, BS_eq, if_neg hcc1024]
      exact round cb cc p hp hcb (by omega) rfl

/-- C7: `ssfs_fread` on a descriptor whose open-file-table entry has an
empty name returns `-1` and reads nothing; on an open descriptor over a
well-formed inode with a valid read cursor, the return value is the
number of bytes actually placed in the buffer, which is at most the
requested count and never carries the cursor past the end-of-file
position `(last_block, end_byte)`. -/
theorem claim7_fread_bounds (st : St) (fileID len : Nat) :
    (isEmptyName (st.oft fileID).entry.name → (ssfs_fread st fileID len).1 = -1) ∧
    (¬ isEmptyName (st.oft fileID).entry.name →
      ∀ p : Nat, NodeWF st.fs st.disk ((st.oft fileID).entry.i_node_number) →
        0 ≤ (st.fs.i_node ((st.oft fileID).entry.i_node_number)).size →
        p < (fileChain st.fs st.disk ((st.oft fileID).entry.i_node_number)).length →
        (fileChain st.fs st.disk ((st.oft fileID).entry.i_node_number)).getD p 0
          = (st.oft fileID).read_pointer.block →
        (st.oft fileID).read_pointer.c_ptr ≤ NUMBER_OF_BYTES_BLOCK →
        (ssfs_fread st fileID len).1
            = Int.ofNat (ssfs_fread st fileID len).2.1.length ∧
        (ssfs_fread st fileID len).2.1.length ≤ len ∧
        p * NUMBER_OF_BYTES_BLOCK + (st.oft fileID).read_pointer.c_ptr
            + (ssfs_fread st fileID len).2.1.length
          ≤ max (p * NUMBER_OF_BYTES_BLOCK + (st.oft fileID).read_pointer.c_ptr)
              (((fileChain st.fs st.disk
                    ((st.oft fileID).entry.i_node_number)).length - 1)
                  * NUMBER_OF_BYTES_BLOCK
                + (get_end_char st.fs st.disk
                    ((st.oft fileID).entry.i_node_number)).toNat)) := by
  constructor
  · intro h
    simp [ssfs_fread, h]
  · intro hne p wf hsz hp hcb hcc
    by_cases h0 : len = 0
    · subst h0
      refine ⟨by simp [ssfs_fread, hne], by simp [ssfs_fread, hne], ?_⟩
      have hres : (ssfs_fread st fileID 0).2.1 = [] := by
        simp [ssfs_fread, hne]
      rw [hres]
      simp only [List.length_nil, Nat.add_zero]
      exact le_max_left _ _
    · obtain ⟨hge0, hle⟩ := get_end_char_bounds st.fs st.disk
        ((st.oft fileID).entry.i_node_number) hsz
      have hlcle : (get_end_char st.fs st.disk
          ((st.oft fileID).entry.i_node_number)).toNat ≤ NUMBER_OF_BYTES_BLOCK := by
        rw [BS_eq] at hle ⊢
        exact Int.toNat_le.mpr hle
      have hlceq : get_end_char st.fs st.disk ((st.oft fileID).entry.i_node_number)
          = Int.ofNat (get_end_char st.fs st.disk
              ((st.oft fileID).entry.i_node_number)).toNat := by
        rw [Int.ofNat_eq_natCast, Int.toNat_of_nonneg hge0]
      have hlbeq := get_last_chain st.fs st.disk
        ((st.oft fileID).entry.i_node_number) wf
      have hb := freadGo_bound st.fs st.disk ((st.oft fileID).entry.i_node_number)
        wf ((get_end_char st.fs st.disk ((st.oft fileID).entry.i_node_number)).toNat)
        hlcle (len + 1) (st.oft fileID).read_pointer.block
        (st.oft fileID).read_pointer.c_ptr len p hp hcb hcc
      rw [← hlceq, ← hlbeq] at hb
      have hun : (ssfs_fread st fileID len).2.1
          = (freadGo st.fs st.disk ((st.oft fileID).entry.i_node_number)
              (get_last_file_block st.fs st.disk ((st.oft fileID).entry.i_node_number))
              (get_end_char st.fs st.disk ((st.oft fileID).entry.i_node_number))
              (len + 1) (st.oft fileID).read_pointer.block
              (st.oft fileID).read_pointer.c_ptr len).1 := by
        simp [ssfs_fread, hne, h0]
      have hret : (ssfs_fread st fileID len).1
          = Int.ofNat (ssfs_fread st fileID len).2.1.length := by
        simp [ssfs_fread, hne, h0]
      rw [hun]
      exact ⟨by rw [← hun]; exact hret, hb.1, hb.2⟩

/-- Concrete run of `claim7_fread_bounds`: reading 10 bytes from the
open descriptor of the one-block file. -/
theorem claim7_fread_bounds_witness :
    (ssfs_fread oneFileSt 0 10).1 = Int.ofNat (ssfs_fread oneFileSt 0 10).2.1.length ∧
    (ssfs_fread oneFileSt 0 10).2.1.length ≤ 10 ∧
    0 * NUMBER_OF_BYTES_BLOCK + (oneFileSt.oft 0).read_pointer.c_ptr
        + (ssfs_fread oneFileSt 0 10).2.1.length
      ≤ max (0 * NUMBER_OF_BYTES_BLOCK + (oneFileSt.oft 0).read_pointer.c_ptr)
          (((fileChain oneFileSt.fs oneFileSt.disk
                ((oneFileSt.oft 0).entry.i_node_number)).length - 1)
              * NUMBER_OF_BYTES_BLOCK
            + (get_end_char oneFileSt.fs oneFileSt.disk
                ((oneFileSt.oft 0).entry.i_node_number)).toNat) :=
  (claim7_fread_bounds oneFileSt 0 10).2 (by decide) 0 (by unfold NodeWF; decide)
    (by decide) (by decide) (by decide) (by decide)

/-! ## Write-path size accounting -/

/-- Number of `inc_file_size` calls the inner copy loop performs when it
writes `m` bytes starting at char `cc` of block `cb`, with the snapshot
`(lbBlk, lcN)` and the new-block flag `nb`. -/
def wCount (nb : Int) (lbBlk lcN cb cc m : Nat) : Nat :=
  if nb ≠ 0 then m
  else if cb = lbBlk then (cc + m) - max cc lcN
  else 0

theorem inc_file_size_size (fs : SFileSystem) (inn : Nat) (d : Int) :
    ((inc_file_size fs inn d).i_node inn).size = (fs.i_node inn).size + d := by
  simp [inc_file_size, upd_same]

theorem inc_file_size_comp (fs : SFileSystem) (inn : Nat) (a b : Int) :
    inc_file_size (inc_file_size fs inn a) inn b = inc_file_size fs inn (a + b) := by
  unfold inc_file_size
  simp only [upd_same]
  congr 1
  funext i
  by_cases h : i = inn
  · subst h
    simp [upd_same, Int.add_assoc]
  · simp [upd, h]

theorem inc_file_size_zero (fs : SFileSystem) (inn : Nat) :
    inc_file_size fs inn 0 = fs := by
  unfold inc_file_size
  have h : ({ fs.i_node inn with size := (fs.i_node inn).size + 0 } : SNode)
      = fs.i_node inn := by
    simp
  rw [h]
  have h2 : upd fs.i_node inn (fs.i_node inn) = fs.i_node := by
    funext i
    by_cases hi : i = inn
    · subst hi; exact upd_same _ _ _
    · exact upd_other _ _ _ _ hi
  rw [h2]

theorem inc_file_size_pointer (fs : SFileSystem) (inn : Nat) (d : Int) :
    ((inc_file_size fs inn d).i_node inn).pointer = (fs.i_node inn).pointer := by
  simp [inc_file_size, upd_same]

theorem inc_file_size_chain (fs : SFileSystem) (disk : Disk) (inn : Nat) (d : Int) :
    fileChain (inc_file_size fs inn d) disk inn = fileChain fs disk inn := by
  simp [fileChain, inc_file_size, upd_same]

theorem inc_file_size_NodeWF (fs : SFileSystem) (disk : Disk) (inn : Nat) (d : Int)
    (wf : NodeWF fs disk inn) : NodeWF (inc_file_size fs inn d) disk inn := by
  unfold NodeWF at wf ⊢
  rw [inc_file_size_chain]
  simpa [inc_file_size, upd_same] using wf

theorem inc_file_size_ChainAllocated (fs : SFileSystem) (disk : Disk) (inn : Nat) (d : Int)
    (ca : ChainAllocated fs disk inn) : ChainAllocated (inc_file_size fs inn d) disk inn := by
  unfold ChainAllocated at ca ⊢
  rw [inc_file_size_chain]
  simpa [inc_file_size] using ca

theorem data_upd_chain (fs : SFileSystem) (disk : Disk) (inn : Nat) (u : Nat → Nat → Nat) :
    fileChain fs { disk with data := u } inn = fileChain fs disk inn := by
  simp [fileChain]

theorem data_upd_NodeWF (fs : SFileSystem) (disk : Disk) (inn : Nat) (u : Nat → Nat → Nat)
    (wf : NodeWF fs disk inn) : NodeWF fs { disk with data := u } inn := by
  unfold NodeWF at wf ⊢
  rw [data_upd_chain]
  exact wf

theorem data_upd_ChainAllocated (fs : SFileSystem) (disk : Disk) (inn : Nat)
    (u : Nat → Nat → Nat) (ca : ChainAllocated fs disk inn) :
    ChainAllocated fs { disk with data := u } inn := by
  unfold ChainAllocated at ca ⊢
  rw [data_upd_chain]
  exact ca

/-- The inner copy loop of `ssfs_fwrite`: it writes some `m ≤ |buf|`
bytes, advances `cc` by `m`, stays within the block, stops only at a
full block, and performs exactly `wCount` size increments. -/
theorem writeChars_size (inn : Nat) (lbBlk lcN : Nat) (nb : Int) (cb : Nat) :
    ∀ (buf : List Nat) (cc : Nat) (blk : Nat → Nat) (fs : SFileSystem),
      cc ≤ NUMBER_OF_BYTES_BLOCK →
      ∃ m, m ≤ buf.length ∧
        (writeChars inn (Int.ofNat lbBlk) (Int.ofNat lcN) nb cb buf cc blk fs).1
          = buf.drop m ∧
        (writeChars inn (Int.ofNat lbBlk) (Int.ofNat lcN) nb cb buf cc blk fs).2.1
          = cc + m ∧
        cc + m ≤ NUMBER_OF_BYTES_BLOCK ∧
        ((writeChars inn (Int.ofNat lbBlk) (Int.ofNat lcN) nb cb buf cc blk fs).1 ≠ [] →
          cc + m = NUMBER_OF_BYTES_BLOCK) ∧
        (writeChars inn (Int.ofNat lbBlk) (Int.ofNat lcN) nb cb buf cc blk fs).2.2.2
          = inc_file_size fs inn (Int.ofNat (wCount nb lbBlk lcN cb cc m)) := by
  intro buf
  induction buf with
  | nil =>
    intro cc blk fs hcc
    refine ⟨0, by simp, by simp [writeChars], by simp [writeChars], by omega,
      by simp [writeChars], ?_⟩
    simp only [writeChars, wCount]
    rw [show (if nb ≠ 0 then 0 else if cb = lbBlk then (cc + 0) - max cc lcN else 0) = 0 by
      split <;> simp <;> omega]
    rw [show Int.ofNat 0 = (0 : Int) from rfl, inc_file_size_zero]
  | cons b rest ih =>
    intro cc blk fs hcc
    by_cases hlt : cc < NUMBER_OF_BYTES_BLOCK
    · have hstep : writeChars inn (Int.ofNat lbBlk) (Int.ofNat lcN) nb cb (b :: rest) cc blk fs
          = writeChars inn (Int.ofNat lbBlk) (Int.ofNat lcN) nb cb rest (cc + 1)
              (upd blk cc b)
              (if nb ≠ 0 ∨ (Int.ofNat cb = Int.ofNat lbBlk ∧ Int.ofNat (cc + 1) > Int.ofNat lcN)
               then inc_file_size fs inn 1 else fs) := by
        simp only [writeChars, if_pos hlt]
      obtain ⟨m, hm, hdrop, hcc', hle, hfull, hsz⟩ := ih (cc + 1) (upd blk cc b)
        (if nb ≠ 0 ∨ (Int.ofNat cb = Int.ofNat lbBlk ∧ Int.ofNat (cc + 1) > Int.ofNat lcN)
         then inc_file_size fs inn 1 else fs) (by rw [BS_eq] at hlt ⊢; omega)
      refine ⟨m + 1, by simpa using hm, ?_, ?_, by omega, ?_, ?_⟩
      · rw [hstep, hdrop, List.drop_succ_cons]
      · rw [hstep, hcc']; omega
      · rw [hstep]
        intro hne
        have := hfull hne
        omega
      · rw [hstep, hsz]
        have harith : ∀ d : Nat,
            inc_file_size (inc_file_size fs inn 1) inn (Int.ofNat d)
              = inc_file_size fs inn (Int.ofNat (1 + d)) := by
          intro d
          have hcast : (1 : Int) + Int.ofNat d = Int.ofNat (1 + d) := by
            rw [Int.ofNat_eq_natCast, Int.ofNat_eq_natCast]
            push_cast
            ring
          rw [inc_file_size_comp, hcast]
        by_cases hnb : nb ≠ 0
        · rw [if_pos (Or.inl hnb)]
          rw [harith]
          congr 2
          simp only [wCount, if_pos hnb]
          omega
        · have hnb0 : nb = 0 := by omega
          by_cases hcb : cb = lbBlk
          · by_cases hpast : lcN < cc + 1
            · rw [if_pos (Or.inr ⟨by rw [hcb], by
                rw [Int.ofNat_eq_natCast, Int.ofNat_eq_natCast]
                exact_mod_cast hpast⟩)]
              rw [harith]
              congr 2
              simp only [wCount, if_neg (by omega : ¬ nb ≠ 0), if_pos hcb]
              omega
            · rw [if_neg (by
                rintro (h | ⟨-, h⟩)
                · exact hnb h
                · rw [Int.ofNat_eq_natCast, Int.ofNat_eq_natCast] at h
                  exact absurd (by exact_mod_cast h) (by omega))]
              congr 2
              simp only [wCount, if_neg (by omega : ¬ nb ≠ 0), if_pos hcb]
              omega
          · rw [if_neg (by
              rintro (h | ⟨h, -⟩)
              · exact hnb h
              · rw [Int.ofNat_eq_natCast, Int.ofNat_eq_natCast] at h
                exact hcb (by exact_mod_cast h))]
            congr 2
            simp only [wCount, if_neg (by omega : ¬ nb ≠ 0), if_neg hcb]
    · have hstop : writeChars inn (Int.ofNat lbBlk) (Int.ofNat lcN) nb cb (b :: rest) cc blk fs
          = (b :: rest, cc, blk, fs) := by
        simp only [writeChars, if_neg hlt]
      refine ⟨0, by simp, by rw [hstop]; simp, by rw [hstop]; simp, by omega, ?_, ?_⟩
      · intro _
        omega
      · rw [hstop, show wCount nb lbBlk lcN cb cc 0 = 0 by
          simp only [wCount]
          split <;> simp <;> omega,
          show Int.ofNat 0 = (0 : Int) from rfl, inc_file_size_zero]


theorem FD_eq : FIRST_DATA_BLOCK = 14 := rfl

theorem LD_eq : LAST_DATA_BLOCK = 1016 := rfl

/-- Writing a nonzero value into the first zero slot extends the
nonzero prefix by exactly that value. -/
theorem takeUntilZero_upd (f : Nat → Nat) (b : Nat) (hb : b ≠ 0) :
    ∀ (n start i : Nat), start ≤ i → i < start + n →
      (∀ k, start ≤ k → k < i → f k ≠ 0) → f i = 0 →
      (i + 1 < start + n → f (i + 1) = 0) →
      takeUntilZero (upd f i b) start n = takeUntilZero f start n ++ [b] := by
  intro n
  induction n with
  | zero => intro start i h1 h2 _ _ _; omega
  | succ n ih =>
    intro start i h1 h2 hpre hz hnext
    by_cases hsi : start = i
    · subst hsi
      simp only [takeUntilZero]
      rw [if_pos hz, upd_same, if_neg hb]
      simp only [List.nil_append]
      congr 1
      cases n with
      | zero => simp [takeUntilZero]
      | succ n =>
        simp only [takeUntilZero]
        rw [if_pos (by
          rw [upd_other _ _ _ _ (by omega : start + 1 ≠ start)]
          exact hnext (by omega))]
    · have hlt : start < i := by omega
      have hfs : f start ≠ 0 := hpre start (le_refl _) hlt
      simp only [takeUntilZero]
      rw [upd_other _ _ _ _ (by omega : start ≠ i)]
      rw [if_neg hfs, if_neg hfs]
      simp only [List.cons_append]
      congr 1
      exact ih (start + 1) i (by omega) (by omega)
        (fun k hk1 hk2 => hpre k (by omega) hk2) hz
        (fun h => hnext (by omega))

/-- A map that is nonzero at 0 and zero at 1 has a one-element nonzero
prefix. -/
theorem takeUntilZero_one (f : Nat → Nat) :
    ∀ n, 2 ≤ n → f 0 ≠ 0 → f 1 = 0 → takeUntilZero f 0 n = [f 0] := by
  intro n
  cases n with
  | zero => intro h; omega
  | succ n =>
    cases n with
    | zero => intro h; omega
    | succ k =>
      intro _ h0 h1
      simp only [takeUntilZero]
      rw [if_neg h0, if_pos h1]

/-- `get_free_block` either fails leaving the state alone, or returns
the first free data block with its bit cleared. -/
theorem get_free_block_cases (fs : SFileSystem) :
    (get_free_block fs = (-1, fs)) ∨
    (∃ b : Nat, get_free_block fs
        = (Int.ofNat b, { fs with free_bit_map := clr_bit_map fs.free_bit_map b }) ∧
      FIRST_DATA_BLOCK ≤ b ∧ b ≤ LAST_DATA_BLOCK ∧ fs.free_bit_map b = true) := by
  unfold get_free_block
  cases hfind : findIdx? (fun i => get_bit_map fs.free_bit_map i)
      FIRST_DATA_BLOCK (LAST_DATA_BLOCK + 1 - FIRST_DATA_BLOCK) with
  | none => exact Or.inl rfl
  | some i =>
    obtain ⟨k1, k2, k3, _⟩ := findIdx?_some hfind
    refine Or.inr ⟨i, rfl, k1, ?_, k3⟩
    have hFD := FD_eq
    have hLD := LD_eq
    omega


/-- Extending a densely packed array at its first zero slot keeps it
densely packed. -/
theorem upd_first_zero_density (g : Nat → Nat) (N i b : Nat) (hb : b ≠ 0)
    (hz : g i = 0) (hpre : ∀ k, k < i → g k ≠ 0)
    (hdens : ∀ j, j < N → g j ≠ 0 → ∀ k, k ≤ j → g k ≠ 0) :
    ∀ j, j < N → upd g i b j ≠ 0 → ∀ k, k ≤ j → upd g i b k ≠ 0 := by
  intro j hj hnz k hk
  have hji : j ≤ i := by
    by_contra hgt
    push_neg at hgt
    rw [upd_other _ _ _ _ (by omega)] at hnz
    exact (hdens j hj hnz i (by omega)) hz
  by_cases hki : k = i
  · subst hki
    rw [upd_same]
    exact hb
  · rw [upd_other _ _ _ _ hki]
    exact hpre k (by omega)

/-- Appending a block not on the chain keeps the chain duplicate-free. -/
theorem nodup_snoc (l : List Nat) (b : Nat) (hnd : l.Nodup) (hb : b ∉ l) :
    (l ++ [b]).Nodup := by
  rw [List.nodup_append]
  exact ⟨hnd, List.nodup_singleton _, by
    intro x hx hxb
    simp only [List.mem_singleton] at hxb
    subst hxb
    exact hb hx⟩

/-- `add_block` never touches the file size; when it fails the inode
is untouched, and when it succeeds it appends exactly the freshly
allocated block to the pointer chain, preserving well-formedness and
the allocation invariant. -/
theorem add_block_spec (fs : SFileSystem) (disk : Disk) (inn : Nat)
    (wf : NodeWF fs disk inn) (ca : ChainAllocated fs disk inn) :
    ((add_block fs disk inn).1 < 0 →
      (((add_block fs disk inn).2.1).i_node inn).size = (fs.i_node inn).size) ∧
    (0 ≤ (add_block fs disk inn).1 → ∃ b : Nat,
      (add_block fs disk inn).1 = Int.ofNat b ∧ b ≠ 0 ∧
      fileChain (add_block fs disk inn).2.1 (add_block fs disk inn).2.2 inn
        = fileChain fs disk inn ++ [b] ∧
      NodeWF (add_block fs disk inn).2.1 (add_block fs disk inn).2.2 inn ∧
      ChainAllocated (add_block fs disk inn).2.1 (add_block fs disk inn).2.2 inn ∧
      (((add_block fs disk inn).2.1).i_node inn).size = (fs.i_node inn).size) := by
  have h14 := NP_eq
  have h256 := PIB_eq
  have hFD := FD_eq
  obtain ⟨wf1, wf2, wf3, wf4⟩ := wf
  have ca' : ∀ x ∈ fileChain fs disk inn, fs.free_bit_map x = false := ca
  rcases get_free_block_cases fs with hg | ⟨bb, hg, hb1, hb2, hb3⟩
  · -- no free block at all
    have hab : add_block fs disk inn = (-1, fs, disk) := by
      simp [add_block, hg]
    rw [hab]
    exact ⟨fun _ => rfl, fun h => absurd (show (0 : Int) ≤ -1 from h) (by decide)⟩
  · have hnn : ¬ (Int.ofNat bb < 0) := by
      rw [Int.ofNat_eq_natCast]
      omega
    have hnnc : ¬ ((bb : Int) < 0) := by omega
    have htnb : (Int.ofNat bb).toNat = bb := rfl
    have hbb0 : bb ≠ 0 := by omega
    have hbnotin : bb ∉ fileChain fs disk inn := by
      intro hm
      rw [ca' bb hm] at hb3
      cases hb3
    cases hfd : findIdx? (fun k => (fs.i_node inn).pointer k == 0) 0 NUMBER_OF_POINTERS with
    | some i =>
      -- a direct pointer slot is free
      obtain ⟨f1, f2, f3, f4⟩ := findIdx?_some hfd
      have hpz : (fs.i_node inn).pointer i = 0 := by simpa using f3
      have hpnz : ∀ k, k < i → (fs.i_node inn).pointer k ≠ 0 := fun k hk => by
        simpa using f4 k (Nat.zero_le _) hk
      have hind0 : (fs.i_node inn).ind_pointer = 0 := by
        by_contra hi
        exact ((wf3 hi).1 i (by omega)) hpz
      have hnexti : i + 1 < NUMBER_OF_POINTERS → (fs.i_node inn).pointer (i + 1) = 0 := by
        intro h
        by_contra hnz
        exact (wf2 (i + 1) h hnz i (by omega)) hpz
      have hab : add_block fs disk inn =
          (Int.ofNat bb,
           { fs with
               free_bit_map := clr_bit_map fs.free_bit_map bb,
               i_node := upd fs.i_node inn
                 { fs.i_node inn with pointer := upd (fs.i_node inn).pointer i bb } },
           disk) := by
        simp [add_block, hg, hnn, hnnc, hfd, htnb]
      have hnode : ((add_block fs disk inn).2.1).i_node inn
          = { fs.i_node inn with pointer := upd (fs.i_node inn).pointer i bb } := by
        rw [hab]
        exact upd_same _ _ _
      have hbm : ((add_block fs disk inn).2.1).free_bit_map
          = clr_bit_map fs.free_bit_map bb := by
        rw [hab]
      have hdisk2 : (add_block fs disk inn).2.2 = disk := by
        rw [hab]
      have htu := takeUntilZero_upd (fs.i_node inn).pointer bb hbb0 NUMBER_OF_POINTERS 0 i
        (Nat.zero_le _) (by omega) (fun k _ hk => hpnz k hk) hpz
        (fun h => hnexti (by omega))
      have hchain' : fileChain (add_block fs disk inn).2.1 (add_block fs disk inn).2.2 inn
          = fileChain fs disk inn ++ [bb] := by
        simp only [fileChain]
        rw [hnode, hdisk2]
        simp [hind0, htu]
      refine ⟨fun h => by rw [hab] at h; exact absurd h hnn, fun _ => ?_⟩
      refine ⟨bb, by rw [hab], hbb0, hchain', ?_, ?_, by rw [hnode]⟩
      · -- well-formedness of the extended node
        unfold NodeWF
        rw [hnode, hchain', hdisk2]
        refine ⟨?_, ?_, ?_, nodup_snoc _ _ wf4 hbnotin⟩
        · show upd (fs.i_node inn).pointer i bb 0 ≠ 0
          by_cases h0 : (0 : Nat) = i
          · rw [← h0] at hpz ⊢
            rw [show upd (fs.i_node inn).pointer 0 bb 0 = bb from upd_same _ _ _]
            exact hbb0
          · rw [upd_other _ _ _ _ h0]
            exact wf1
        · exact upd_first_zero_density _ _ _ _ hbb0 hpz hpnz wf2
        · intro hi
          exact absurd hind0 hi
      · -- allocation invariant
        unfold ChainAllocated
        intro x hx
        rw [hchain'] at hx
        rw [hbm]
        show clr_bit_map fs.free_bit_map bb x = false
        by_cases hxb : x = bb
        · subst hxb
          exact upd_same _ _ _
        · rw [show clr_bit_map fs.free_bit_map bb x = fs.free_bit_map x from
            upd_other _ _ _ _ hxb]
          rcases List.mem_append.mp hx with h | h
          · exact ca' x h
          · simp only [List.mem_singleton] at h
            exact absurd h hxb
    | none =>
      -- all direct pointers in use
      have hdfull : ∀ k, k < NUMBER_OF_POINTERS → (fs.i_node inn).pointer k ≠ 0 := by
        intro k hk
        have := findIdx?_none.mp hfd k (Nat.zero_le _) (by omega)
        simpa using this
      by_cases hip : (fs.i_node inn).ind_pointer = 0
      · -- need to allocate the indirect block
        rcases get_free_block_cases
            { fs with free_bit_map := clr_bit_map fs.free_bit_map bb } with hg2 | hg2
        · -- no room for the indirect block: release b and fail
          have hab : add_block fs disk inn =
              (-1,
               { fs with
                   free_bit_map := set_bit_map (clr_bit_map fs.free_bit_map bb) bb,
                   write_mask := set_bit_map fs.write_mask bb },
               disk) := by
            simp [add_block, hg, hnn, hnnc, hfd, hip, hg2, htnb]
          rw [hab]
          exact ⟨fun _ => rfl, fun h => absurd (show (0 : Int) ≤ -1 from h) (by decide)⟩
        · obtain ⟨ib, hg2, hib1, hib2, hib3⟩ := hg2
          have hib0 : ib ≠ 0 := by omega
          have hnn2 : ¬ (Int.ofNat ib < 0) := by
            rw [Int.ofNat_eq_natCast]
            omega
          have hnn2c : ¬ ((ib : Int) < 0) := by omega
          have htni : (Int.ofNat ib).toNat = ib := rfl
          have hab : add_block fs disk inn =
              (Int.ofNat bb,
               { fs with
                   free_bit_map := clr_bit_map (clr_bit_map fs.free_bit_map bb) ib,
                   i_node := upd fs.i_node inn
                     { fs.i_node inn with ind_pointer := ib } },
               { disk with ind := upd disk.ind ib (upd (fun _ => 0) 0 bb) }) := by
            simp [add_block, hg, hnn, hnnc, hfd, hip, hg2, hnn2, hnn2c, htnb, htni]
          have hnode : ((add_block fs disk inn).2.1).i_node inn
              = { fs.i_node inn with ind_pointer := ib } := by
            rw [hab]
            exact upd_same _ _ _
          have hbm : ((add_block fs disk inn).2.1).free_bit_map
              = clr_bit_map (clr_bit_map fs.free_bit_map bb) ib := by
            rw [hab]
          have hdisk2 : (add_block fs disk inn).2.2
              = { disk with ind := upd disk.ind ib (upd (fun _ => 0) 0 bb) } := by
            rw [hab]
          have hone : takeUntilZero (upd (fun _ => 0) 0 bb) 0 POINTERS_IND_BLOCK
              = [bb] := by
            rw [show takeUntilZero (upd (fun _ => 0) 0 bb) 0 POINTERS_IND_BLOCK
                = [upd (fun _ => 0) 0 bb 0] from
              takeUntilZero_one _ _ (by omega)
                (by rw [upd_same]; exact hbb0)
                (upd_other _ _ _ _ (by omega))]
            rw [upd_same]
          have hchain' : fileChain (add_block fs disk inn).2.1 (add_block fs disk inn).2.2 inn
              = fileChain fs disk inn ++ [bb] := by
            simp only [fileChain]
            rw [hnode, hdisk2]
            rw [if_neg hib0, if_pos hip]
            simp only []
            rw [show upd disk.ind ib (upd (fun _ => 0) 0 bb) ib
                = upd (fun _ => 0) 0 bb from upd_same _ _ _]
            rw [hone]
          refine ⟨fun h => by rw [hab] at h; exact absurd h hnn, fun _ => ?_⟩
          refine ⟨bb, by rw [hab], hbb0, hchain', ?_, ?_, by rw [hnode]⟩
          · unfold NodeWF
            rw [hnode, hchain', hdisk2]
            refine ⟨wf1, wf2, ?_, nodup_snoc _ _ wf4 hbnotin⟩
            intro _
            refine ⟨hdfull, ?_⟩
            simp only []
            rw [show upd disk.ind ib (upd (fun _ => 0) 0 bb) ib
                = upd (fun _ => 0) 0 bb from upd_same _ _ _]
            intro j hj hnz k hk
            by_cases hj0 : j = 0
            · subst hj0
              have hk0 : k = 0 := by omega
              subst hk0
              rw [upd_same]
              exact hbb0
            · rw [upd_other _ _ _ _ hj0] at hnz
              exact absurd rfl hnz
          · unfold ChainAllocated
            intro x hx
            rw [hchain'] at hx
            rw [hbm]
            show clr_bit_map (clr_bit_map fs.free_bit_map bb) ib x = false
            by_cases hxi : x = ib
            · subst hxi
              exact upd_same _ _ _
            · rw [show clr_bit_map (clr_bit_map fs.free_bit_map bb) ib x
                  = clr_bit_map fs.free_bit_map bb x from upd_other _ _ _ _ hxi]
              by_cases hxb : x = bb
              · subst hxb
                exact upd_same _ _ _
              · rw [show clr_bit_map fs.free_bit_map bb x = fs.free_bit_map x from
                  upd_other _ _ _ _ hxb]
                rcases List.mem_append.mp hx with h | h
                · exact ca' x h
                · simp only [List.mem_singleton] at h
                  exact absurd h hxb
      · -- indirect block exists: find a free slot inside it
        cases hfi : findIdx? (fun k => disk.ind (fs.i_node inn).ind_pointer k == 0)
            0 POINTERS_IND_BLOCK with
        | some i =>
          obtain ⟨f1, f2, f3, f4⟩ := findIdx?_some hfi
          have hpz : disk.ind (fs.i_node inn).ind_pointer i = 0 := by simpa using f3
          have hpnz : ∀ k, k < i → disk.ind (fs.i_node inn).ind_pointer k ≠ 0 :=
            fun k hk => by simpa using f4 k (Nat.zero_le _) hk
          have hnexti : i + 1 < POINTERS_IND_BLOCK →
              disk.ind (fs.i_node inn).ind_pointer (i + 1) = 0 := by
            intro h
            by_contra hnz
            exact ((wf3 hip).2 (i + 1) h hnz i (by omega)) hpz
          have hab : add_block fs disk inn =
              (Int.ofNat bb,
               { fs with free_bit_map := clr_bit_map fs.free_bit_map bb },
               { disk with
                   ind := upd disk.ind (fs.i_node inn).ind_pointer
                     (upd (disk.ind (fs.i_node inn).ind_pointer) i bb) }) := by
            simp [add_block, hg, hnn, hnnc, hfd, hip, hfi, htnb]
          have hnode : ((add_block fs disk inn).2.1).i_node inn = fs.i_node inn := by
            rw [hab]
          have hbm : ((add_block fs disk inn).2.1).free_bit_map
              = clr_bit_map fs.free_bit_map bb := by
            rw [hab]
          have hdisk2 : (add_block fs disk inn).2.2
              = { disk with
                    ind := upd disk.ind (fs.i_node inn).ind_pointer
                      (upd (disk.ind (fs.i_node inn).ind_pointer) i bb) } := by
            rw [hab]
          have htu := takeUntilZero_upd (disk.ind (fs.i_node inn).ind_pointer) bb hbb0
            POINTERS_IND_BLOCK 0 i (Nat.zero_le _) (by omega)
            (fun k _ hk => hpnz k hk) hpz (fun h => hnexti (by omega))
          have hchain' : fileChain (add_block fs disk inn).2.1 (add_block fs disk inn).2.2 inn
              = fileChain fs disk inn ++ [bb] := by
            simp only [fileChain]
            rw [hnode, hdisk2]
            rw [if_neg hip, if_neg hip]
            simp only []
            rw [show upd disk.ind (fs.i_node inn).ind_pointer
                  (upd (disk.ind (fs.i_node inn).ind_pointer) i bb)
                  (fs.i_node inn).ind_pointer
                = upd (disk.ind (fs.i_node inn).ind_pointer) i bb from upd_same _ _ _]
            rw [htu, List.append_assoc]
          refine ⟨fun h => by rw [hab] at h; exact absurd h hnn, fun _ => ?_⟩
          refine ⟨bb, by rw [hab], hbb0, hchain', ?_, ?_, by rw [hnode]⟩
          · unfold NodeWF
            rw [hnode, hchain', hdisk2]
            refine ⟨wf1, wf2, ?_, nodup_snoc _ _ wf4 hbnotin⟩
            intro _
            refine ⟨hdfull, ?_⟩
            simp only []
            rw [show upd disk.ind (fs.i_node inn).ind_pointer
                  (upd (disk.ind (fs.i_node inn).ind_pointer) i bb)
                  (fs.i_node inn).ind_pointer
                = upd (disk.ind (fs.i_node inn).ind_pointer) i bb from upd_same _ _ _]
            exact upd_first_zero_density _ _ _ _ hbb0 hpz hpnz (wf3 hip).2
          · unfold ChainAllocated
            intro x hx
            rw [hchain'] at hx
            rw [hbm]
            show clr_bit_map fs.free_bit_map bb x = false
            by_cases hxb : x = bb
            · subst hxb
              exact upd_same _ _ _
            · rw [show clr_bit_map fs.free_bit_map bb x = fs.free_bit_map x from
                upd_other _ _ _ _ hxb]
              rcases List.mem_append.mp hx with h | h
              · exact ca' x h
              · simp only [List.mem_singleton] at h
                exact absurd h hxb
        | none =>
          -- indirect block full: leak b and fail
          have hab : add_block fs disk inn =
              (-1, { fs with free_bit_map := clr_bit_map fs.free_bit_map bb }, disk) := by
            simp [add_block, hg, hnn, hnnc, hfd, hip, hfi, htnb]
          rw [hab]
          exact ⟨fun _ => rfl, fun h => absurd (show (0 : Int) ≤ -1 from h) (by decide)⟩


theorem ofNat_add_ofNat (a b : Nat) :
    Int.ofNat a + Int.ofNat b = Int.ofNat (a + b) := by
  rw [Int.ofNat_eq_natCast, Int.ofNat_eq_natCast, Int.ofNat_eq_natCast]
  push_cast
  ring

/-- Chaining the past-end-of-file byte counts of two consecutive write
segments. -/
theorem pastCount_step (pos m w E : Nat) :
    ((pos + m) - max pos E) + ((pos + m + w) - max (pos + m) E)
      = (pos + (m + w)) - max pos E := by
  rcases le_total pos E with h1 | h1
  · rcases le_total (pos + m) E with h2 | h2
    · rw [max_eq_right h1, max_eq_right h2]
      omega
    · rw [max_eq_right h1, max_eq_left h2]
      omega
  · rw [max_eq_left h1, max_eq_left (le_trans h1 (by omega))]
    omega

/-- The `FILL_BLOCK` loop of `ssfs_fwrite`: it increments the file size
once per byte written at or past the end-of-file snapshot
`(last block of L0, lcN)` and never otherwise. -/
theorem fwriteGo_size (inn : Nat) (L0 : List Nat) (hL0 : L0 ≠ []) (lcN : Nat)
    (hlcBS : lcN ≤ NUMBER_OF_BYTES_BLOCK) :
    ∀ (fuel : Nat) (nb : Int) (cb cc : Nat) (buf : List Nat)
      (fs : SFileSystem) (disk : Disk) (p : Nat),
      NodeWF fs disk inn → ChainAllocated fs disk inn →
      p < (fileChain fs disk inn).length →
      (fileChain fs disk inn).getD p 0 = cb →
      cc ≤ NUMBER_OF_BYTES_BLOCK →
      (nb = 0 → fileChain fs disk inn = L0 ∧ p < L0.length) →
      (nb ≠ 0 → 0 ≤ nb ∧ L0.length ≤ p ∧ p = (fileChain fs disk inn).length - 1) →
      (fwriteGo inn (Int.ofNat (L0.getD (L0.length - 1) 0)) (Int.ofNat lcN)
          fuel nb cb cc buf fs disk).2.2.1.length ≤ buf.length ∧
      (((fwriteGo inn (Int.ofNat (L0.getD (L0.length - 1) 0)) (Int.ofNat lcN)
          fuel nb cb cc buf fs disk).2.2.2.1).i_node inn).size
        = (fs.i_node inn).size
          + Int.ofNat ((p * NUMBER_OF_BYTES_BLOCK + cc
              + (buf.length - (fwriteGo inn (Int.ofNat (L0.getD (L0.length - 1) 0))
                  (Int.ofNat lcN) fuel nb cb cc buf fs disk).2.2.1.length))
            - max (p * NUMBER_OF_BYTES_BLOCK + cc)
                ((L0.length - 1) * NUMBER_OF_BYTES_BLOCK + lcN)) := by
  rw [BS_eq] at hlcBS
  simp only [BS_eq]
  have hL0pos : 0 < L0.length := List.length_pos.mpr hL0
  intro fuel
  induction fuel with
  | zero =>
    intro nb cb cc buf fs disk p _ _ hp hcb hcc _ _
    simp only [fwriteGo]
    refine ⟨le_refl _, ?_⟩
    have h1 : p * 1024 + cc + (buf.length - buf.length)
        - max (p * 1024 + cc) ((L0.length - 1) * 1024 + lcN) = 0 :=
      Nat.sub_eq_zero_of_le (by
        have := le_max_left (p * 1024 + cc) ((L0.length - 1) * 1024 + lcN)
        omega)
    rw [h1, show Int.ofNat 0 = (0 : Int) from rfl, Int.add_zero]
  | succ fuel ih =>
    intro nb cb cc buf fs disk p wf ca hp hcb hcc hnb0 hnbn
    have round : ∀ (nb' : Int) (cb' cc' p' : Nat) (fs' : SFileSystem) (disk' : Disk),
        NodeWF fs' disk' inn → ChainAllocated fs' disk' inn →
        p' < (fileChain fs' disk' inn).length →
        (fileChain fs' disk' inn).getD p' 0 = cb' →
        cc' ≤ 1024 →
        (nb' = 0 → fileChain fs' disk' inn = L0 ∧ p' < L0.length) →
        (nb' ≠ 0 → 0 ≤ nb' ∧ L0.length ≤ p' ∧
          p' = (fileChain fs' disk' inn).length - 1) →
        p' * 1024 + cc' = p * 1024 + cc →
        (fs'.i_node inn).size = (fs.i_node inn).size →
        (fwriteRound inn (Int.ofNat (L0.getD (L0.length - 1) 0)) (Int.ofNat lcN)
            (fwriteGo inn (Int.ofNat (L0.getD (L0.length - 1) 0)) (Int.ofNat lcN) fuel)
            nb' cb' cc' buf fs' disk').2.2.1.length ≤ buf.length ∧
        (((fwriteRound inn (Int.ofNat (L0.getD (L0.length - 1) 0)) (Int.ofNat lcN)
            (fwriteGo inn (Int.ofNat (L0.getD (L0.length - 1) 0)) (Int.ofNat lcN) fuel)
            nb' cb' cc' buf fs' disk').2.2.2.1).i_node inn).size
          = (fs.i_node inn).size
            + Int.ofNat ((p * 1024 + cc
                + (buf.length - (fwriteRound inn
                    (Int.ofNat (L0.getD (L0.length - 1) 0)) (Int.ofNat lcN)
                    (fwriteGo inn (Int.ofNat (L0.getD (L0.length - 1) 0))
                      (Int.ofNat lcN) fuel)
                    nb' cb' cc' buf fs' disk').2.2.1.length))
              - max (p * 1024 + cc) ((L0.length - 1) * 1024 + lcN)) := by
      intro nb' cb' cc' p' fs' disk' wf' ca' hp' hcb' hcc' hnb0' hnbn' hpos hszeq
      obtain ⟨m, hm, hdrop, hccm, hccle, hfull, hwsz⟩ :=
        writeChars_size inn (L0.getD (L0.length - 1) 0) lcN nb' cb' buf cc'
          (disk'.data cb') fs' (by rw [BS_eq]; omega)
      have hccle' : cc' + m ≤ 1024 := by
        rw [BS_eq] at hccle
        exact hccle
      have hwc : wCount nb' (L0.getD (L0.length - 1) 0) lcN cb' cc' m
          = (p' * 1024 + cc' + m)
            - max (p' * 1024 + cc') ((L0.length - 1) * 1024 + lcN) := by
        by_cases hnb'0 : nb' = 0
        · obtain ⟨hch, hpl⟩ := hnb0' hnb'0
          by_cases hple : p' = L0.length - 1
          · have hcbl : cb' = L0.getD (L0.length - 1) 0 := by
              rw [← hcb', hch, hple]
            simp only [wCount, if_neg (by simp [hnb'0] : ¬ nb' ≠ 0), if_pos hcbl]
            rw [hple]
            rcases le_total cc' lcN with h1 | h1
            · rw [max_eq_right h1,
                max_eq_right (by omega : (L0.length - 1) * 1024 + cc'
                  ≤ (L0.length - 1) * 1024 + lcN)]
              omega
            · rw [max_eq_left h1,
                max_eq_left (by omega : (L0.length - 1) * 1024 + lcN
                  ≤ (L0.length - 1) * 1024 + cc')]
              omega
          · have hne : cb' ≠ L0.getD (L0.length - 1) 0 := by
              intro he
              refine hple (chain_getD_inj fs' disk' inn wf' p' (L0.length - 1)
                hp' (by rw [hch]; omega) ?_)
              rw [hcb', hch, ← he]
            simp only [wCount, if_neg (by simp [hnb'0] : ¬ nb' ≠ 0), if_neg hne]
            have hmul : (p' + 1) * 1024 ≤ (L0.length - 1) * 1024 :=
              Nat.mul_le_mul_right _ (by omega)
            rw [max_eq_right (by omega : p' * 1024 + cc'
              ≤ (L0.length - 1) * 1024 + lcN)]
            omega
        · obtain ⟨hge, hLp, hlast⟩ := hnbn' hnb'0
          simp only [wCount, if_pos hnb'0]
          have hmul : L0.length * 1024 ≤ p' * 1024 := Nat.mul_le_mul_right _ hLp
          rw [max_eq_left (by omega : (L0.length - 1) * 1024 + lcN ≤ p' * 1024 + cc')]
          omega
      simp only [fwriteRound]
      by_cases hemp : (writeChars inn (Int.ofNat (L0.getD (L0.length - 1) 0))
          (Int.ofNat lcN) nb' cb' buf cc' (disk'.data cb') fs').1.isEmpty
      · rw [if_pos hemp]
        have h1 : (writeChars inn (Int.ofNat (L0.getD (L0.length - 1) 0))
            (Int.ofNat lcN) nb' cb' buf cc' (disk'.data cb') fs').1 = [] := by
          simpa using hemp
        have hdnil : buf.drop m = [] := by
          rw [← hdrop]
          exact h1
        have hmlen : buf.length ≤ m := by
          have h2 := List.drop_eq_nil_iff.mp hdnil
          exact h2
        constructor
        · show (writeChars inn (Int.ofNat (L0.getD (L0.length - 1) 0))
            (Int.ofNat lcN) nb' cb' buf cc' (disk'.data cb') fs').1.length ≤ buf.length
          rw [h1]
          simp
        · show ((writeChars inn (Int.ofNat (L0.getD (L0.length - 1) 0))
              (Int.ofNat lcN) nb' cb' buf cc' (disk'.data cb') fs').2.2.2.i_node inn).size
            = (fs.i_node inn).size
              + Int.ofNat ((p * 1024 + cc
                  + (buf.length - (writeChars inn
                      (Int.ofNat (L0.getD (L0.length - 1) 0)) (Int.ofNat lcN)
                      nb' cb' buf cc' (disk'.data cb') fs').1.length))
                - max (p * 1024 + cc) ((L0.length - 1) * 1024 + lcN))
          rw [hwsz, inc_file_size_size, hszeq, h1]
          congr 1
          rw [hwc]
          congr 1
          rw [show p * 1024 + cc = p' * 1024 + cc' from hpos.symm]
          simp only [List.length_nil]
          omega
      · rw [if_neg hemp]
        rw [hccm, hdrop, hwsz]
        have hch2 : fileChain
            (inc_file_size fs' inn
              (Int.ofNat (wCount nb' (L0.getD (L0.length - 1) 0) lcN cb' cc' m)))
            { disk' with
                data := upd disk'.data cb' (writeChars inn
                  (Int.ofNat (L0.getD (L0.length - 1) 0)) (Int.ofNat lcN) nb' cb' buf
                  cc' (disk'.data cb') fs').2.2.1 } inn
          = fileChain fs' disk' inn := by
          rw [data_upd_chain, inc_file_size_chain]
        obtain ⟨g1, g2⟩ := ih nb' cb' (cc' + m) (buf.drop m)
          (inc_file_size fs' inn
            (Int.ofNat (wCount nb' (L0.getD (L0.length - 1) 0) lcN cb' cc' m)))
          { disk' with
              data := upd disk'.data cb' (writeChars inn
                (Int.ofNat (L0.getD (L0.length - 1) 0)) (Int.ofNat lcN) nb' cb' buf
                cc' (disk'.data cb') fs').2.2.1 } p'
          (data_upd_NodeWF _ _ _ _ (inc_file_size_NodeWF _ _ _ _ wf'))
          (data_upd_ChainAllocated _ _ _ _ (inc_file_size_ChainAllocated _ _ _ _ ca'))
          (by rw [hch2]; exact hp')
          (by rw [hch2]; exact hcb')
          (by omega)
          (fun h => ⟨by rw [hch2]; exact (hnb0' h).1, (hnb0' h).2⟩)
          (fun h => ⟨(hnbn' h).1, (hnbn' h).2.1, by rw [hch2]; exact (hnbn' h).2.2⟩)
        have hdl : (buf.drop m).length = buf.length - m := List.length_drop _ _
        constructor
        · omega
        · rw [g2, inc_file_size_size, hszeq]
          rw [Int.add_assoc, ofNat_add_ofNat]
          congr 1
          congr 1
          rw [show p * 1024 + cc = p' * 1024 + cc' from hpos.symm]
          rw [show p' * 1024 + (cc' + m) = p' * 1024 + cc' + m from by omega]
          have hps := pastCount_step (p' * 1024 + cc') m
            ((buf.drop m).length
              - (fwriteGo inn (Int.ofNat (L0.getD (L0.length - 1) 0)) (Int.ofNat lcN)
                  fuel nb' cb' (cc' + m) (buf.drop m)
                  (inc_file_size fs' inn
                    (Int.ofNat (wCount nb' (L0.getD (L0.length - 1) 0) lcN cb' cc' m)))
                  { disk' with
                      data := upd disk'.data cb' (writeChars inn
                        (Int.ofNat (L0.getD (L0.length - 1) 0)) (Int.ofNat lcN) nb'
                        cb' buf cc' (disk'.data cb') fs').2.2.1 }).2.2.1.length)
            ((L0.length - 1) * 1024 + lcN)
          omega
    by_cases hcc1024 : cc ≥ 1024
    · have hcceq : cc = 1024 := by omega
      have hnext := get_next_chain fs disk inn cb wf p hp hcb
      simp only [fwriteGo, BS_eq, if_pos hcc1024, hnext]
      by_cases hp1 : p + 1 < (fileChain fs disk inn).length
      · have hnbz : nb = 0 := by
          by_contra h
          obtain ⟨-, -, hl⟩ := hnbn h
          omega
        obtain ⟨hch, hpL⟩ := hnb0 hnbz
        rw [if_pos hp1]
        rw [if_neg (by rw [Int.ofNat_eq_natCast]; omega)]
        rw [if_neg (by simp [hnbz] : ¬ nb ≠ 0)]
        rw [show (Int.ofNat ((fileChain fs disk inn).getD (p + 1) 0)).toNat
            = (fileChain fs disk inn).getD (p + 1) 0 from rfl]
        exact round nb ((fileChain fs disk inn).getD (p + 1) 0) 0 (p + 1) fs disk
          wf ca hp1 rfl (by omega)
          (fun _ => ⟨hch, by rw [← hch]; exact hp1⟩)
          (fun h => absurd hnbz h)
          (by omega) rfl
      · have hplast : p + 1 = (fileChain fs disk inn).length := by omega
        have hL0le : L0.length ≤ p + 1 := by
          rcases eq_or_ne nb 0 with h | h
          · obtain ⟨hch, -⟩ := hnb0 h
            rw [← hch]
            omega
          · obtain ⟨-, hLp, -⟩ := hnbn h
            omega
        rw [if_neg hp1]
        rw [if_pos (by decide : (-1 : Int) < 0)]
        obtain ⟨habf, habs⟩ := add_block_spec fs disk inn wf ca
        rcases hab : add_block fs disk inn with ⟨nb', fs₁, disk₁⟩
        rw [hab] at habf habs
        simp only [hab]
        by_cases hnbneg : nb' < 0
        · rw [if_pos hnbneg]
          refine ⟨le_refl _, ?_⟩
          have hsz1 : (fs₁.i_node inn).size = (fs.i_node inn).size := habf hnbneg
          show (fs₁.i_node inn).size = (fs.i_node inn).size
            + Int.ofNat (p * 1024 + cc + (buf.length - buf.length)
              - max (p * 1024 + cc) ((L0.length - 1) * 1024 + lcN))
          have h1 : p * 1024 + cc + (buf.length - buf.length)
              - max (p * 1024 + cc) ((L0.length - 1) * 1024 + lcN) = 0 :=
            Nat.sub_eq_zero_of_le (by
              have := le_max_left (p * 1024 + cc) ((L0.length - 1) * 1024 + lcN)
              omega)
          rw [h1, show Int.ofNat 0 = (0 : Int) from rfl, Int.add_zero]
          exact hsz1
        · obtain ⟨b, hbeq, hb0, hchainb, hwfb, hcab, hszb⟩ := habs (by omega)
          have hbeq' : nb' = Int.ofNat b := hbeq
          have hchainb' : fileChain fs₁ disk₁ inn = fileChain fs disk inn ++ [b] :=
            hchainb
          have hwfb' : NodeWF fs₁ disk₁ inn := hwfb
          have hcab' : ChainAllocated fs₁ disk₁ inn := hcab
          have hszb' : (fs₁.i_node inn).size = (fs.i_node inn).size := hszb
          have hnbne : nb' ≠ 0 := by
            rw [hbeq', Int.ofNat_eq_natCast]
            exact Int.natCast_ne_zero.mpr hb0
          rw [if_neg (by omega : ¬ nb' < 0)]
          rw [if_pos hnbne]
          rw [show nb'.toNat = b from by rw [hbeq']; rfl]
          exact round nb' b 0 (p + 1) fs₁ disk₁ hwfb' hcab'
            (by rw [hchainb', List.length_append]; simp only [List.length_cons,
              List.length_nil]; omega)
            (by
              rw [hchainb', List.getD_append_right _ _ _ _ (by omega),
                show p + 1 - (fileChain fs disk inn).length = 0 from by omega]
              rfl)
            (by omega)
            (fun h => absurd h hnbne)
            (fun _ => ⟨by omega, by omega, by
              rw [hchainb', List.length_append]
              simp only [List.length_cons, List.length_nil]
              omega⟩)
            (by omega) hszb'
    · simp only [fwriteGo, BS_eq, if_neg hcc1024]
      exact round nb cb cc p fs disk wf ca hp hcb (by omega) hnb0 hnbn rfl rfl


/-- C5: `ssfs_fwrite` on an open descriptor over a well-formed inode
increments the file size by exactly one for each written byte whose
linear position lies at or past the end-of-file snapshot
`(last_block, end_byte)` taken at the start of the call; in particular
a write that stays entirely within the existing file bytes leaves the
size unchanged. -/
theorem claim5_fwrite_size (st : St) (fileID : Nat) (buf : List Nat)
    (wf : NodeWF st.fs st.disk ((st.oft fileID).entry.i_node_number))
    (ca : ChainAllocated st.fs st.disk ((st.oft fileID).entry.i_node_number))
    (hsz : 0 ≤ (st.fs.i_node ((st.oft fileID).entry.i_node_number)).size)
    (p : Nat)
    (hp : p < (fileChain st.fs st.disk ((st.oft fileID).entry.i_node_number)).length)
    (hcb : (fileChain st.fs st.disk ((st.oft fileID).entry.i_node_number)).getD p 0
      = (st.oft fileID).write_pointer.block)
    (hcc : (st.oft fileID).write_pointer.c_ptr ≤ NUMBER_OF_BYTES_BLOCK) :
    ∃ w : Nat, (ssfs_fwrite st fileID buf).1 = Int.ofNat w ∧ w ≤ buf.length ∧
      (((ssfs_fwrite st fileID buf).2.fs.i_node
          ((st.oft fileID).entry.i_node_number)).size
        = (st.fs.i_node ((st.oft fileID).entry.i_node_number)).size
          + Int.ofNat ((p * NUMBER_OF_BYTES_BLOCK
                + (st.oft fileID).write_pointer.c_ptr + w)
            - max (p * NUMBER_OF_BYTES_BLOCK + (st.oft fileID).write_pointer.c_ptr)
                (((fileChain st.fs st.disk
                      ((st.oft fileID).entry.i_node_number)).length - 1)
                    * NUMBER_OF_BYTES_BLOCK
                  + (get_end_char st.fs st.disk
                      ((st.oft fileID).entry.i_node_number)).toNat))) ∧
      (p * NUMBER_OF_BYTES_BLOCK + (st.oft fileID).write_pointer.c_ptr + buf.length
          ≤ ((fileChain st.fs st.disk
                ((st.oft fileID).entry.i_node_number)).length - 1)
              * NUMBER_OF_BYTES_BLOCK
            + (get_end_char st.fs st.disk
                ((st.oft fileID).entry.i_node_number)).toNat →
        ((ssfs_fwrite st fileID buf).2.fs.i_node
            ((st.oft fileID).entry.i_node_number)).size
          = (st.fs.i_node ((st.oft fileID).entry.i_node_number)).size) := by
  by_cases hbe : buf.isEmpty
  · have hbnil : buf = [] := by simpa using hbe
    subst hbnil
    refine ⟨0, by simp [ssfs_fwrite], by simp, ?_, fun _ => by simp [ssfs_fwrite]⟩
    have h1 : p * NUMBER_OF_BYTES_BLOCK + (st.oft fileID).write_pointer.c_ptr + 0
        - max (p * NUMBER_OF_BYTES_BLOCK + (st.oft fileID).write_pointer.c_ptr)
            (((fileChain st.fs st.disk
                  ((st.oft fileID).entry.i_node_number)).length - 1)
                * NUMBER_OF_BYTES_BLOCK
              + (get_end_char st.fs st.disk
                  ((st.oft fileID).entry.i_node_number)).toNat) = 0 :=
      Nat.sub_eq_zero_of_le (by
        have := le_max_left
          (p * NUMBER_OF_BYTES_BLOCK + (st.oft fileID).write_pointer.c_ptr)
          (((fileChain st.fs st.disk
                ((st.oft fileID).entry.i_node_number)).length - 1)
              * NUMBER_OF_BYTES_BLOCK
            + (get_end_char st.fs st.disk
                ((st.oft fileID).entry.i_node_number)).toNat)
        omega)
    rw [h1, show Int.ofNat 0 = (0 : Int) from rfl, Int.add_zero]
    simp [ssfs_fwrite]
  · obtain ⟨hge0, hle⟩ := get_end_char_bounds st.fs st.disk
      ((st.oft fileID).entry.i_node_number) hsz
    have hlcle : (get_end_char st.fs st.disk
        ((st.oft fileID).entry.i_node_number)).toNat ≤ NUMBER_OF_BYTES_BLOCK := by
      rw [BS_eq] at hle ⊢
      exact Int.toNat_le.mpr hle
    have hlceq : get_end_char st.fs st.disk ((st.oft fileID).entry.i_node_number)
        = Int.ofNat (get_end_char st.fs st.disk
            ((st.oft fileID).entry.i_node_number)).toNat := by
      rw [Int.ofNat_eq_natCast, Int.toNat_of_nonneg hge0]
    have hlbeq := get_last_chain st.fs st.disk
      ((st.oft fileID).entry.i_node_number) wf
    have hL0 : fileChain st.fs st.disk ((st.oft fileID).entry.i_node_number) ≠ [] := by
      have := chain_length_pos st.fs st.disk ((st.oft fileID).entry.i_node_number) wf
      intro h
      rw [h] at this
      simp at this
    obtain ⟨g1, g2⟩ := fwriteGo_size ((st.oft fileID).entry.i_node_number)
      (fileChain st.fs st.disk ((st.oft fileID).entry.i_node_number)) hL0
      ((get_end_char st.fs st.disk ((st.oft fileID).entry.i_node_number)).toNat)
      hlcle (buf.length + 1) 0 (st.oft fileID).write_pointer.block
      (st.oft fileID).write_pointer.c_ptr buf st.fs st.disk p wf ca hp hcb hcc
      (fun _ => ⟨rfl, hp⟩) (fun h => absurd rfl h)
    rw [← hlceq, ← hlbeq] at g1 g2
    have hun : (ssfs_fwrite st fileID buf).2.fs
        = (fwriteGo ((st.oft fileID).entry.i_node_number)
            (get_last_file_block st.fs st.disk ((st.oft fileID).entry.i_node_number))
            (get_end_char st.fs st.disk ((st.oft fileID).entry.i_node_number))
            (buf.length + 1) 0 (st.oft fileID).write_pointer.block
            (st.oft fileID).write_pointer.c_ptr buf st.fs st.disk).2.2.2.1 := by
      simp [ssfs_fwrite, hbe]
    have hret : (ssfs_fwrite st fileID buf).1
        = Int.ofNat (buf.length
            - (fwriteGo ((st.oft fileID).entry.i_node_number)
                (get_last_file_block st.fs st.disk
                  ((st.oft fileID).entry.i_node_number))
                (get_end_char st.fs st.disk ((st.oft fileID).entry.i_node_number))
                (buf.length + 1) 0 (st.oft fileID).write_pointer.block
                (st.oft fileID).write_pointer.c_ptr buf st.fs st.disk).2.2.1.length) := by
      simp [ssfs_fwrite, hbe]
    refine ⟨buf.length
        - (fwriteGo ((st.oft fileID).entry.i_node_number)
            (get_last_file_block st.fs st.disk ((st.oft fileID).entry.i_node_number))
            (get_end_char st.fs st.disk ((st.oft fileID).entry.i_node_number))
            (buf.length + 1) 0 (st.oft fileID).write_pointer.block
            (st.oft fileID).write_pointer.c_ptr buf st.fs st.disk).2.2.1.length,
      hret, by omega, ?_, ?_⟩
    · rw [hun]
      exact g2
    · intro hwithin
      rw [hun, g2]
      have h1 : p * NUMBER_OF_BYTES_BLOCK + (st.oft fileID).write_pointer.c_ptr
          + (buf.length
            - (fwriteGo ((st.oft fileID).entry.i_node_number)
                (get_last_file_block st.fs st.disk
                  ((st.oft fileID).entry.i_node_number))
                (get_end_char st.fs st.disk ((st.oft fileID).entry.i_node_number))
                (buf.length + 1) 0 (st.oft fileID).write_pointer.block
                (st.oft fileID).write_pointer.c_ptr buf st.fs st.disk).2.2.1.length)
          - max (p * NUMBER_OF_BYTES_BLOCK + (st.oft fileID).write_pointer.c_ptr)
              (((fileChain st.fs st.disk
                    ((st.oft fileID).entry.i_node_number)).length - 1)
                  * NUMBER_OF_BYTES_BLOCK
                + (get_end_char st.fs st.disk
                    ((st.oft fileID).entry.i_node_number)).toNat) = 0 :=
        Nat.sub_eq_zero_of_le (by
          have := le_max_right
            (p * NUMBER_OF_BYTES_BLOCK + (st.oft fileID).write_pointer.c_ptr)
            (((fileChain st.fs st.disk
                  ((st.oft fileID).entry.i_node_number)).length - 1)
                * NUMBER_OF_BYTES_BLOCK
              + (get_end_char st.fs st.disk
                  ((st.oft fileID).entry.i_node_number)).toNat)
          omega)
      rw [h1, show Int.ofNat 0 = (0 : Int) from rfl, Int.add_zero]


/-- Concrete run of `claim5_fwrite_size`: appending three bytes at the
end-of-file cursor of the one-block file. -/
theorem claim5_fwrite_size_witness :
    ∃ w : Nat, (ssfs_fwrite oneFileSt 0 [1, 2, 3]).1 = Int.ofNat w ∧
      w ≤ [1, 2, 3].length ∧
      (((ssfs_fwrite oneFileSt 0 [1, 2, 3]).2.fs.i_node
          ((oneFileSt.oft 0).entry.i_node_number)).size
        = (oneFileSt.fs.i_node ((oneFileSt.oft 0).entry.i_node_number)).size
          + Int.ofNat ((0 * NUMBER_OF_BYTES_BLOCK
                + (oneFileSt.oft 0).write_pointer.c_ptr + w)
            - max (0 * NUMBER_OF_BYTES_BLOCK + (oneFileSt.oft 0).write_pointer.c_ptr)
                (((fileChain oneFileSt.fs oneFileSt.disk
                      ((oneFileSt.oft 0).entry.i_node_number)).length - 1)
                    * NUMBER_OF_BYTES_BLOCK
                  + (get_end_char oneFileSt.fs oneFileSt.disk
                      ((oneFileSt.oft 0).entry.i_node_number)).toNat))) ∧
      (0 * NUMBER_OF_BYTES_BLOCK + (oneFileSt.oft 0).write_pointer.c_ptr
            + [1, 2, 3].length
          ≤ ((fileChain oneFileSt.fs oneFileSt.disk
                ((oneFileSt.oft 0).entry.i_node_number)).length - 1)
              * NUMBER_OF_BYTES_BLOCK
            + (get_end_char oneFileSt.fs oneFileSt.disk
                ((oneFileSt.oft 0).entry.i_node_number)).toNat →
        ((ssfs_fwrite oneFileSt 0 [1, 2, 3]).2.fs.i_node
            ((oneFileSt.oft 0).entry.i_node_number)).size
          = (oneFileSt.fs.i_node ((oneFileSt.oft 0).entry.i_node_number)).size) :=
  claim5_fwrite_size oneFileSt 0 [1, 2, 3] (by unfold NodeWF; decide)
    (by unfold ChainAllocated; decide) (by decide) 0 (by decide) (by decide) (by decide)

end SFS
